import Mathlib

/-!
# Verification of curv's binding-resolution phase (src/curv/definition.cc)

This file gives a shallow embedding of the definition/scope analysis code of
the curv repository (`src/curv/definition.cc`): sequential and recursive
scopes, slot/dictionary management, the lazy Tarjan SCC analysis of
`Recursive_Scope::analyze_unit`, function-capture environments, and grouped
function setters.

Modelling conventions:

* A definition's right-hand side is abstracted to the ordered list of
  identifiers that `analyze_op` looks up while analyzing it (`UnitDef.refs`).
  All other phrase structure is irrelevant to this component.
* `curv::Shared` handles, source locations, and `frame_maxslots_` bookkeeping
  are dropped; exceptions become an error value carried by `Res`, which keeps
  the state at the moment of the throw (C++ exceptions do not roll back the
  scope's containers).
* The class `definition.h` header is not part of the repository snapshot; the
  container types it declares (`dictionary_`, `nonlocals_`, the slot
  allocator `make_slot`) are modelled from the spec as insertion-ordered
  association lists and a counter.  Only lookup/membership and assignment
  semantics of those containers are relied upon by the theorems.
* `assert(0)` in `Function_Definition::make_setter` is modelled as a
  defensive failure, following the spec's description of it as a
  defensive-assertion failure.  The consistency `assert`s inside the SCC
  machinery are modelled with release (`NDEBUG`) semantics - they compile to
  nothing in a release build, and the code's own comments document grouped
  mutual recursion (which those asserts would wrongly reject) as supported
  behaviour; container accesses that would be out of bounds without them are
  modelled as defensive failures.
* The interpreter is fuelled to make the reentrant recursion of
  `analyze_unit` structurally terminating; every recursive call burns one
  unit of fuel, and exhaustion is a distinguished error `outOfFuel`.
-/

namespace Curv

abbrev Atom := String

/-- The two kinds of unitary definition: `Data_Definition` and
`Function_Definition`. -/
inductive DefKind where
  | data
  | func
deriving DecidableEq, Repr

/-- One unitary definition: its name, its kind, and the ordered list of
identifiers looked up while its right-hand side is analyzed. -/
structure UnitDef where
  name : Atom
  kind : DefKind
  refs : List Atom
deriving DecidableEq, Repr

/-- Resolved meanings / operations produced by lookups: compile-time
constants, direct frame references (`Let_Ref`), module-indirect references
(`Indirect_Strict_Ref`), and placeholder references (`Symbolic_Ref`). -/
inductive Expr where
  | constant (v : Nat)
  | letRef (name : Atom) (slot : Nat)
  | indirectRef (name : Atom) (moduleSlot : Nat) (slot : Nat)
  | symbolicRef (name : Atom)
deriving DecidableEq, Repr

/-- `isa<Constant>` on a resolved meaning. -/
def isConstant : Expr → Bool
  | .constant _ => true
  | _ => false

/-- Entries of the shared nonlocals enumeration of a `Function_Setter`:
either a captured operation, or a `Constant` holding a member function's
lambda template (body abstracted to its list of resolved references). -/
inductive NExpr where
  | expr (e : Expr)
  | lambdaConst (funName : Atom) (body : List Expr)
deriving DecidableEq, Repr

/-- Initializer actions pushed onto `executable_.actions_`. -/
inductive Action where
  | dataSetter (slot : Nat) (rhs : List Expr)
  | moduleDataSetter (moduleSlot : Nat) (slot : Nat) (rhs : List Expr)
  | functionSetter (moduleSlot : Option Nat) (nonlocalDict : List (Atom × Nat))
      (nonlocalExprs : List NExpr) (pairs : List (Nat × List Expr))
  | statement (ops : List Expr)
deriving DecidableEq, Repr

/-- The error kinds raised by this component (plus fuel exhaustion of the
model's interpreter). -/
inductive AnalysisError where
  | multiplyDefined (name : Atom)
  | illegalRecursiveReference (name : Option Atom)
  | recursiveDataDefinition (name : Atom)
  | unresolvedReference (name : Atom)
  | assertionFailure
  | outOfFuel
deriving DecidableEq, Repr

/-- Lifecycle states of a `Recursive_Scope::Unit`. -/
inductive UnitState where
  | notAnalyzed
  | inProgress
  | analyzed
deriving DecidableEq, Repr

/-- A `Recursive_Scope::Unit`: a definition plus cycle-detection state, the
slot assigned at registration, the resolved right-hand side, and the capture
mapping accumulated by the function-capture environment. -/
structure Unit where
  defn : UnitDef
  slot : Nat := 0
  state : UnitState := .notAnalyzed
  sccOrd : Nat := 0
  sccLowlink : Nat := 0
  resolved : List Expr := []
  nonlocals : List (Atom × Expr) := []
deriving DecidableEq, Repr

/-- A `Recursive_Scope` dictionary entry: slot index and unit index. -/
structure Binding where
  slot_index : Nat
  unit_index : Nat
deriving DecidableEq, Repr

/-- The mutable state of one `Recursive_Scope` during analysis.  Both stacks
are lists of unit indices with the head as the top. -/
structure ScopeState where
  units : List Unit := []
  dictionary : List (Atom × Binding) := []
  actionPhrases : List (List Atom) := []
  actions : List Action := []
  sccStack : List Nat := []
  analysisStack : List Nat := []
  sccCount : Nat := 0
  slotCount : Nat := 0
deriving DecidableEq, Repr

/-- Scope configuration: the target module slot (`none` models the
`(slot_t)(-1)` sentinel, i.e. a non-module target), and the lookup result of
the chain of parent environments for names not bound in this scope. -/
structure Config where
  moduleSlot : Option Nat
  outer : Atom → Option Expr

/-- `target_is_module_`. -/
def Config.targetIsModule (cfg : Config) : Bool := cfg.moduleSlot.isSome

/-- Result of a stateful computation: `ok` or a thrown exception, in both
cases carrying the state (exceptions do not roll containers back). -/
inductive Res (σ : Type) (α : Type) where
  | ok (a : α) (st : σ)
  | err (e : AnalysisError) (st : σ)
deriving DecidableEq, Repr

/-- Association-list lookup (models `std::map::find`). -/
def lookupA {β : Type} : List (Atom × β) → Atom → Option β
  | [], _ => none
  | (a, b) :: t, x => if a = x then some b else lookupA t x

/-- Association-list assignment (models `map[key] = value`): replaces the
bound value if the key is present, otherwise appends a new entry. -/
def updateA {β : Type} : List (Atom × β) → Atom → β → List (Atom × β)
  | [], x, v => [(x, v)]
  | (a, b) :: t, x, v => if a = x then (x, v) :: t else (a, b) :: updateA t x v

/-- `units_[i]`. -/
def getUnit (st : ScopeState) (i : Nat) : Option Unit := st.units[i]?

/-- Write back `units_[i]`. -/
def setUnit (st : ScopeState) (i : Nat) (u : Unit) : ScopeState :=
  { st with units := st.units.set i u }

/-- `Data_Definition::make_setter`: a `Module_Data_Setter` when the scope
targets a module, otherwise a `Data_Setter`. -/
def Data_Definition.make_setter (moduleSlot : Option Nat) (slot : Nat)
    (definiens : List Expr) : Action :=
  match moduleSlot with
  | some m => .moduleDataSetter m slot definiens
  | none => .dataSetter slot definiens

/-- `Function_Definition::make_setter`: `assert(0)` - a defensive failure,
never a setter. -/
def Function_Definition.make_setter (_moduleSlot : Option Nat) :
    Except AnalysisError Action :=
  .error .assertionFailure

/-- `Recursive_Scope::add_binding`: reject duplicates, then allocate the next
slot - the dictionary size for a module target, `make_slot()` otherwise. -/
def Recursive_Scope.add_binding (cfg : Config) (st : ScopeState) (name : Atom)
    (unitno : Nat) : Res ScopeState Nat :=
  match lookupA st.dictionary name with
  | some _ => .err (.multiplyDefined name) st
  | none =>
    if cfg.targetIsModule then
      let slot := st.dictionary.length
      .ok slot { st with dictionary := st.dictionary ++ [(name, ⟨slot, unitno⟩)] }
    else
      let slot := st.slotCount
      .ok slot { st with slotCount := st.slotCount + 1,
                         dictionary := st.dictionary ++ [(name, ⟨slot, unitno⟩)] }

/-- `Data_Definition::add_to_scope` / `Function_Definition::add_to_scope` on a
recursive scope: `begin_unit` appends a fresh unit, `add_binding` assigns the
slot (stored into the definition), `end_unit` is a no-op. -/
def Recursive_Scope.add_definition (cfg : Config) (st : ScopeState)
    (d : UnitDef) : Res ScopeState Nat :=
  let idx := st.units.length
  let st1 := { st with units := st.units ++ [{ defn := d }] }
  match Recursive_Scope.add_binding cfg st1 d.name idx with
  | .err e st2 => .err e st2
  | .ok slot st2 =>
    match getUnit st2 idx with
    | some u => .ok idx (setUnit st2 idx { u with slot := slot })
    | none => .err .assertionFailure st2

/-- An entry of a `Compound_Definition`: a nested definition or a bare
statement phrase (abstracted to the identifiers it looks up). -/
inductive Entry where
  | defn (d : UnitDef)
  | phrase (refs : List Atom)
deriving DecidableEq, Repr

/-- `Compound_Definition_Base::add_to_scope` on a recursive scope: in source
order, definitions register themselves; bare statements are forwarded to
`Recursive_Scope::add_action`, which collects their phrases. -/
def Recursive_Scope.add_to_scope (cfg : Config) :
    ScopeState → List Entry → Res ScopeState PUnit
  | st, [] => .ok ⟨⟩ st
  | st, .defn d :: rest =>
    match Recursive_Scope.add_definition cfg st d with
    | .err e st1 => .err e st1
    | .ok _ st1 => Recursive_Scope.add_to_scope cfg st1 rest
  | st, .phrase refs :: rest =>
    Recursive_Scope.add_to_scope cfg
      { st with actionPhrases := st.actionPhrases ++ [refs] } rest

/-- Lines 174-183 of `Recursive_Scope::analyze_unit`: after unit `i`'s body
has been analyzed and the analysis stack popped, propagate its lowlink to the
parent on the analysis stack when it is lower, and throw
"illegal recursive reference" when the completed unit is a data unit. -/
def propagate_lowlink (st : ScopeState) (i : Nat) (id : Option Atom) :
    Res ScopeState PUnit :=
  match st.analysisStack with
  | [] => .ok ⟨⟩ st
  | p :: _ =>
    match getUnit st i, getUnit st p with
    | some ui, some pu =>
      if ui.sccLowlink < pu.sccLowlink then
        let st1 := setUnit st p { pu with sccLowlink := ui.sccLowlink }
        if ui.defn.kind = .data then .err (.illegalRecursiveReference id) st1
        else .ok ⟨⟩ st1
      else .ok ⟨⟩ st
    | _, _ => .err .assertionFailure st

/-- First pass of `Recursive_Scope::make_function_setter`: enter each member
function's lambda template as a constant slot of the nonlocals enumeration;
a member that is not a `Function_Definition` raises
"recursive data definition".  Returns the dictionary, the expression list,
the next slot, and the `{slot, lambda}` pairs of the setter. -/
def mfs_funs : List Unit → List (Atom × Nat) → List NExpr → Nat →
    Except AnalysisError (List (Atom × Nat) × List NExpr × Nat × List (Nat × List Expr))
  | [], dict, exprs, slot => .ok (dict, exprs, slot, [])
  | u :: rest, dict, exprs, slot =>
    if u.defn.kind = .func then
      match mfs_funs rest (updateA dict u.defn.name slot)
          (exprs ++ [.lambdaConst u.defn.name u.resolved]) (slot + 1) with
      | .ok (d, es, s, pairs) => .ok (d, es, s, (u.slot, u.resolved) :: pairs)
      | .error e => .error e
    else
      .error (.recursiveDataDefinition u.defn.name)

/-- Second pass of `make_function_setter` for one member: each captured free
variable not already present in the nonlocals dictionary is added once. -/
def mfs_captures : List (Atom × Expr) → List (Atom × Nat) → List NExpr → Nat →
    List (Atom × Nat) × List NExpr × Nat
  | [], dict, exprs, slot => (dict, exprs, slot)
  | (a, e) :: rest, dict, exprs, slot =>
    match lookupA dict a with
    | some _ => mfs_captures rest dict exprs slot
    | none => mfs_captures rest (updateA dict a slot) (exprs ++ [.expr e]) (slot + 1)

/-- Second pass of `make_function_setter` over all members. -/
def mfs_all_captures : List Unit → List (Atom × Nat) → List NExpr → Nat →
    List (Atom × Nat) × List NExpr × Nat
  | [], dict, exprs, slot => (dict, exprs, slot)
  | u :: rest, dict, exprs, slot =>
    match mfs_captures u.nonlocals dict exprs slot with
    | (d, es, s) => mfs_all_captures rest d es s

/-- `Recursive_Scope::make_function_setter`: build the shared nonlocals
enumeration (member lambdas first, then captured non-member free variables)
and the grouped `Function_Setter`. -/
def make_function_setter (cfg : Config) (members : List Unit) :
    Except AnalysisError Action :=
  match mfs_funs members [] [] 0 with
  | .error e => .error e
  | .ok (dict, exprs, slot, pairs) =>
    match mfs_all_captures members dict exprs slot with
    | (dict1, exprs1, _) =>
      .ok (.functionSetter cfg.moduleSlot dict1 exprs1 pairs)

/-- Mark one unit analyzed (`u->state_ = Unit::k_analyzed`). -/
def mark_analyzed (st : ScopeState) (j : Nat) : ScopeState :=
  match getUnit st j with
  | some u => setUnit st j { u with state := .analyzed }
  | none => st

/-- The pop loop of lines 225-232: pop the SCC stack, marking each popped
unit analyzed, down to and including unit `i`.  Popping an empty stack is an
out-of-bounds access, modelled as a defensive failure. -/
def pop_mark (i : Nat) : List Nat → ScopeState → Res ScopeState PUnit
  | [], st => .err .assertionFailure st
  | top :: rest, st =>
    let st1 := { mark_analyzed st top with sccStack := rest }
    if top = i then .ok ⟨⟩ st1 else pop_mark i rest st1

/-- Bottom-first scan of lines 218-221: the SCC stack is stored top-first, so
the scan runs over its reversal; returns the members from the first (bottom
-most) occurrence of `i` up to the top, in bottom-to-top order. -/
def scc_members (st : ScopeState) (i : Nat) : List Nat :=
  let bottomFirst := st.sccStack.reverse
  bottomFirst.drop (bottomFirst.indexOf i)

/-- Look up a list of unit indices. -/
def getUnits (st : ScopeState) : List Nat → Option (List Unit)
  | [] => some []
  | j :: rest =>
    match getUnit st j, getUnits st rest with
    | some u, some us => some (u :: us)
    | _, _ => none

/-- Lines 205-234 of `Recursive_Scope::analyze_unit`: when unit `i` roots its
SCC (lowlink equals discovery number), emit the initialization action for the
SCC - its own setter for a data unit, a grouped `Function_Setter` otherwise -
and mark the popped members analyzed. -/
def pop_scc (cfg : Config) (st : ScopeState) (i : Nat) : Res ScopeState PUnit :=
  match getUnit st i with
  | none => .err .assertionFailure st
  | some ui =>
    if ui.sccLowlink = ui.sccOrd then
      if ui.defn.kind = .data then
        match st.sccStack with
        | [] => .err .assertionFailure st
        | top :: rest =>
          let st1 := { mark_analyzed st i with sccStack := rest }
          let _ := top
          .ok ⟨⟩ { st1 with actions := st1.actions ++
            [Data_Definition.make_setter cfg.moduleSlot ui.slot ui.resolved] }
      else
        let memberIdxs := scc_members st i
        match getUnits st memberIdxs with
        | none => .err .assertionFailure st
        | some members =>
          match make_function_setter cfg members with
          | .error e => .err e st
          | .ok act =>
            let st1 := { st with actions := st.actions ++ [act] }
            pop_mark i st1.sccStack st1
    else
      .ok ⟨⟩ st

/-- The resolved reference produced by a successful scope lookup:
module-indirect for a module target, a direct frame reference otherwise. -/
def mk_ref (cfg : Config) (name : Atom) (slot : Nat) : Expr :=
  match cfg.moduleSlot with
  | some m => .indirectRef name m slot
  | none => .letRef name slot

/-- Lines 159-164 of `analyze_unit`, entering a not-yet-analyzed unit: mark
it in progress, assign the discovery number, initialize the lowlink, and push
it onto the SCC-candidate and analysis stacks. -/
def enter_unit (st : ScopeState) (i : Nat) (u : Unit) : ScopeState :=
  { setUnit st i { u with state := .inProgress,
                          sccOrd := st.sccCount, sccLowlink := st.sccCount }
    with
    sccCount := st.sccCount + 1,
    sccStack := i :: st.sccStack,
    analysisStack := i :: st.analysisStack }

/-- Lines 172-234 of `analyze_unit`, after the body of unit `i` has been
analyzed to `exprs`: store the resolved right-hand side, pop the analysis
stack, propagate the lowlink to the parent (lines 174-183), and emit the SCC
if `i` roots one (lines 205-234). -/
def finish_unit (cfg : Config) (st2 : ScopeState) (i : Nat) (id : Option Atom)
    (exprs : List Expr) : Res ScopeState PUnit :=
  match getUnit st2 i with
  | none => .err .assertionFailure st2
  | some ui =>
    let st3 := { setUnit st2 i { ui with resolved := exprs } with
                 analysisStack := st2.analysisStack.tail }
    match propagate_lowlink st3 i id with
    | .err e st4 => .err e st4
    | .ok _ st4 => pop_scc cfg st4 i

mutual

/-- `Recursive_Scope::analyze_unit` (lines 155-235): the lazy Tarjan SCC
analysis of one unit, fuelled to bound the reentrant recursion. -/
def analyze_unit (cfg : Config) : Nat → ScopeState → Nat → Option Atom →
    Res ScopeState PUnit
  | 0, st, _, _ => .err .outOfFuel st
  | fuel + 1, st, i, id =>
    match getUnit st i with
    | none => .err .assertionFailure st
    | some u =>
      match u.state with
      | .analyzed => .ok ⟨⟩ st
      | .inProgress =>
        if u.defn.kind = .data then
          .err (.illegalRecursiveReference id) st
        else
          match st.analysisStack with
          | [] => .err .assertionFailure st
          | p :: _ =>
            match getUnit st p with
            | none => .err .assertionFailure st
            | some pu =>
              .ok ⟨⟩ (setUnit st p
                { pu with sccLowlink := min pu.sccLowlink u.sccOrd })
      | .notAnalyzed =>
        match analyze_body cfg fuel (enter_unit st i u) i
            u.defn.refs u.defn.kind with
        | .err e st2 => .err e st2
        | .ok exprs st2 => finish_unit cfg st2 i id exprs

/-- `Recursive_Scope::single_lookup` (lines 284-298): resolve via the
dictionary, ensure the owning unit is analyzed, and return a slot
reference; `none` when the name is not bound in this scope. -/
def Recursive_Scope.single_lookup (cfg : Config) : Nat → ScopeState → Atom →
    Res ScopeState (Option Expr)
  | 0, st, _ => .err .outOfFuel st
  | fuel + 1, st, name =>
    match lookupA st.dictionary name with
    | none => .ok none st
    | some b =>
      match analyze_unit cfg fuel st b.unit_index (some name) with
      | .err e st1 => .err e st1
      | .ok _ st1 => .ok (some (mk_ref cfg name b.slot_index)) st1

/-- The generic `Environ::lookup` chain seen from this scope: this scope's
`single_lookup`, then the parent environments (abstracted by `cfg.outer`). -/
def Recursive_Scope.lookup (cfg : Config) : Nat → ScopeState → Atom →
    Res ScopeState (Option Expr)
  | 0, st, _ => .err .outOfFuel st
  | fuel + 1, st, name =>
    match Recursive_Scope.single_lookup cfg fuel st name with
    | .err e st1 => .err e st1
    | .ok (some m) st1 => .ok (some m) st1
    | .ok none st1 => .ok (cfg.outer name) st1

/-- `Recursive_Scope::Function_Environ::single_lookup` (lines 299-310): a
free-variable lookup of a function body.  A compile-time constant is returned
unchanged; any other operation is stored in the owning unit's capture mapping
and replaced by a placeholder `Symbolic_Ref`. -/
def Function_Environ.single_lookup (cfg : Config) : Nat → ScopeState → Nat →
    Atom → Res ScopeState (Option Expr)
  | 0, st, _, _ => .err .outOfFuel st
  | fuel + 1, st, owner, name =>
    match Recursive_Scope.lookup cfg fuel st name with
    | .err e st1 => .err e st1
    | .ok none st1 => .ok none st1
    | .ok (some m) st1 =>
      if isConstant m then .ok (some m) st1
      else
        match getUnit st1 owner with
        | none => .err .assertionFailure st1
        | some ou =>
          .ok (some (.symbolicRef name))
            (setUnit st1 owner
              { ou with nonlocals := updateA ou.nonlocals name m })

/-- Analysis of a unit's right-hand side, abstracted to resolving its
references in order: a data definition resolves directly in the scope's
environment chain; a function body resolves through the function-capture
environment.  A reference no environment resolves surfaces as the
"unresolved reference" error of the general lookup chain. -/
def analyze_body (cfg : Config) : Nat → ScopeState → Nat → List Atom →
    DefKind → Res ScopeState (List Expr)
  | 0, st, _, _, _ => .err .outOfFuel st
  | _ + 1, st, _, [], _ => .ok [] st
  | fuel + 1, st, owner, r :: rest, kind =>
    let look := match kind with
      | .data => Recursive_Scope.lookup cfg fuel st r
      | .func => Function_Environ.single_lookup cfg fuel st owner r
    match look with
    | .err e st1 => .err e st1
    | .ok none st1 => .err (.unresolvedReference r) st1
    | .ok (some e) st1 =>
      match analyze_body cfg fuel st1 owner rest kind with
      | .err e2 st2 => .err e2 st2
      | .ok es st2 => .ok (e :: es) st2

end

/-- Analysis of the collected bare-statement phrases (lines 129-132): each is
resolved as an operation in the scope's environment and appended to the
action list only after its analysis. -/
def analyze_actions (cfg : Config) (fuel : Nat) :
    ScopeState → List (List Atom) → Res ScopeState PUnit
  | st, [] => .ok ⟨⟩ st
  | st, refs :: rest =>
    match analyze_body cfg fuel st st.units.length refs .data with
    | .err e st1 => .err e st1
    | .ok ops st1 =>
      analyze_actions cfg fuel
        { st1 with actions := st1.actions ++ [.statement ops] } rest

/-- The force-analysis loop of lines 133-136: any unit never triggered by a
lookup is analyzed now; already-analyzed (or in-progress) units are skipped.
The loop runs over the unit vector, whose length is fixed during analysis:
`count` is the number of units still to visit and `k` the current index. -/
def force_units (cfg : Config) (fuel : Nat) :
    Nat → ScopeState → Nat → Res ScopeState PUnit
  | 0, st, _ => .ok ⟨⟩ st
  | count + 1, st, k =>
    match getUnit st k with
    | none => .err .assertionFailure st
    | some u =>
      if u.state = .notAnalyzed then
        match analyze_unit cfg fuel st k none with
        | .err e st1 => .err e st1
        | .ok _ st1 => force_units cfg fuel count st1 (k + 1)
      else force_units cfg fuel count st (k + 1)

/-- `Recursive_Scope::analyze` (lines 123-144): register all entries, analyze
the bare statements, then force-analyze the remaining units.  (Publishing the
module dictionary is modelled by `module_dictionary` below.) -/
def Recursive_Scope.analyze (cfg : Config) (entries : List Entry)
    (fuel : Nat) : Res ScopeState PUnit :=
  match Recursive_Scope.add_to_scope cfg {} entries with
  | .err e st => .err e st
  | .ok _ st =>
    match analyze_actions cfg fuel st st.actionPhrases with
    | .err e st1 => .err e st1
    | .ok _ st1 => force_units cfg fuel st1.units.length st1 0

/-- The module dictionary published at the end of analysis for a module
target (lines 138-143): name to slot index. -/
def module_dictionary (st : ScopeState) : List (Atom × Nat) :=
  st.dictionary.map (fun p => (p.1, p.2.slot_index))

/-! ## Sequential scopes -/

/-- The state of a `Sequential_Scope`: name-to-slot dictionary, emitted
actions, slot allocator. -/
structure SeqState where
  dictionary : List (Atom × Nat) := []
  actions : List Action := []
  slotCount : Nat := 0
deriving DecidableEq, Repr

/-- `Sequential_Scope::add_binding` (lines 104-114). -/
def Sequential_Scope.add_binding (cfg : Config) (st : SeqState) (name : Atom) :
    Res SeqState Nat :=
  match lookupA st.dictionary name with
  | some _ => .err (.multiplyDefined name) st
  | none =>
    if cfg.targetIsModule then
      let slot := st.dictionary.length
      .ok slot { st with dictionary := st.dictionary ++ [(name, slot)] }
    else
      let slot := st.slotCount
      .ok slot { st with slotCount := st.slotCount + 1,
                         dictionary := st.dictionary ++ [(name, slot)] }

/-- `Sequential_Scope::single_lookup` (lines 79-92). -/
def Sequential_Scope.single_lookup (cfg : Config) (st : SeqState)
    (name : Atom) : Option Expr :=
  match lookupA st.dictionary name with
  | some slot => some (mk_ref cfg name slot)
  | none => none

/-- The lookup chain seen from a sequential scope: this scope, then the
parent environments. -/
def Sequential_Scope.lookup (cfg : Config) (st : SeqState) (name : Atom) :
    Option Expr :=
  match Sequential_Scope.single_lookup cfg st name with
  | some m => some m
  | none => cfg.outer name

/-- Resolution of a phrase's references in a sequential scope. -/
def Sequential_Scope.resolve (cfg : Config) (st : SeqState) :
    List Atom → Except AnalysisError (List Expr)
  | [] => .ok []
  | r :: rest =>
    match Sequential_Scope.lookup cfg st r with
    | none => .error (.unresolvedReference r)
    | some e =>
      match Sequential_Scope.resolve cfg st rest with
      | .error e2 => .error e2
      | .ok es => .ok (e :: es)

/-- `Sequential_Scope::end_unit` (lines 115-121): unconditionally emit the
unit's standalone setter - which, for a function definition, is the
defensive failure of `Function_Definition::make_setter`. -/
def Sequential_Scope.end_unit (cfg : Config) (st : SeqState) (d : UnitDef)
    (slot : Nat) (resolved : List Expr) : Res SeqState PUnit :=
  match d.kind with
  | .data =>
    .ok ⟨⟩ { st with actions := st.actions ++
      [Data_Definition.make_setter cfg.moduleSlot slot resolved] }
  | .func =>
    match Function_Definition.make_setter cfg.moduleSlot with
    | .error e => .err e st
    | .ok a => .ok ⟨⟩ { st with actions := st.actions ++ [a] }

/-- `Sequential_Scope::analyze` over a compound definition: units are
analyzed immediately in source order (`begin_unit` analyzes, `add_binding`
allocates, `end_unit` emits); bare statements are analyzed and appended
immediately. -/
def Sequential_Scope.analyze (cfg : Config) :
    SeqState → List Entry → Res SeqState PUnit
  | st, [] => .ok ⟨⟩ st
  | st, .defn d :: rest =>
    match Sequential_Scope.resolve cfg st d.refs with
    | .error e => .err e st
    | .ok resolved =>
      match Sequential_Scope.add_binding cfg st d.name with
      | .err e st1 => .err e st1
      | .ok slot st1 =>
        match Sequential_Scope.end_unit cfg st1 d slot resolved with
        | .err e st2 => .err e st2
        | .ok _ st2 => Sequential_Scope.analyze cfg st2 rest
  | st, .phrase refs :: rest =>
    match Sequential_Scope.resolve cfg st refs with
    | .error e => .err e st
    | .ok ops =>
      Sequential_Scope.analyze cfg
        { st with actions := st.actions ++ [.statement ops] } rest

/-! ## Evolution predicates

`UnitEvolves` and `Pres` describe what one analysis step may do to a unit and
to the scope state: the definition and slot are immutable, the lifecycle
state only advances, lowlinks are only lowered (or stay bounded by the
discovery number once assigned), the dictionary and collected action phrases
are untouched, the unit vector keeps its length, and actions are only
appended. -/

/-- Rank of a unit lifecycle state: the analysis only moves units forward. -/
def stateRank : UnitState → Nat
  | .notAnalyzed => 0
  | .inProgress => 1
  | .analyzed => 2

/-- How one unit may evolve during analysis. -/
def UnitEvolves (u u2 : Unit) : Prop :=
  u2.defn = u.defn ∧ u2.slot = u.slot ∧
  stateRank u.state ≤ stateRank u2.state ∧
  ((u2.sccLowlink ≤ u.sccLowlink ∧ u2.sccOrd = u.sccOrd) ∨
    u2.sccLowlink ≤ u2.sccOrd)

/-- How the scope state may evolve during analysis. -/
def Pres (st st2 : ScopeState) : Prop :=
  st2.dictionary = st.dictionary ∧
  st2.actionPhrases = st.actionPhrases ∧
  st2.units.length = st.units.length ∧
  (∀ j u, getUnit st j = some u →
    ∃ u2, getUnit st2 j = some u2 ∧ UnitEvolves u u2) ∧
  (∃ Δ, st2.actions = st.actions ++ Δ) ∧
  st.sccCount ≤ st2.sccCount

/-- A unit row on which a further `analyze_unit` call is a no-op whenever it
succeeds: the unit is analyzed, or it is in progress and the lowlink of the
parent on the analysis stack (if any) is already at most the unit's discovery
number, so the `std::min` propagation of line 194 cannot change it.  Every
successful `analyze_unit` call leaves its unit in this shape. -/
def ReadyRow (st : ScopeState) (i : Nat) : Prop :=
  ∃ u1, getUnit st i = some u1 ∧
    (u1.state = .analyzed ∨
     (u1.state = .inProgress ∧
      ∀ p rest pu, st.analysisStack = p :: rest → getUnit st p = some pu →
        pu.sccLowlink ≤ u1.sccOrd))

/-! ## Concrete instances

Inputs used by the theorems below.  `cfg0` is a plain (non-module) scope with
no outer bindings; `cfgM` targets a module; `cfgK` has an outer scope binding
`k` to a compile-time constant and `v` to a non-constant operation. -/

/-- A non-module scope with an empty chain of parent environments. -/
def cfg0 : Config := ⟨none, fun _ => none⟩

/-- A module-target scope (module slot 0) with no parent bindings. -/
def cfgM : Config := ⟨some 0, fun _ => none⟩

/-- A non-module scope whose parents bind `k` to a constant and `v` to a
non-constant operation. -/
def cfgK : Config :=
  ⟨none, fun a =>
    if a = "k" then some (.constant 7)
    else if a = "v" then some (.letRef "v" 40) else none⟩

/-- `x = x + 1;` - a data definition referencing its own slot. -/
def exSelf : List Entry := [.defn ⟨"x", .data, ["x"]⟩]

/-- `x = y; y = x;` - cyclic data. -/
def exXY : List Entry := [.defn ⟨"x", .data, ["y"]⟩, .defn ⟨"y", .data, ["x"]⟩]

/-- `f() = g() + 1; g() = 2;` - a function calling a later function that does
not call back. -/
def exFG : List Entry := [.defn ⟨"f", .func, ["g"]⟩, .defn ⟨"g", .func, []⟩]

/-- `f() = x; x = f();` - a function/data cycle, function discovered first. -/
def exFX : List Entry := [.defn ⟨"f", .func, ["x"]⟩, .defn ⟨"x", .data, ["f"]⟩]

/-- `a() = d; d = f(); f() = a();` - a three-unit cycle whose middle unit is
a data definition. -/
def exADF : List Entry :=
  [.defn ⟨"a", .func, ["d"]⟩, .defn ⟨"d", .data, ["f"]⟩,
   .defn ⟨"f", .func, ["a"]⟩]

/-- `a = 1; a = 2;` - a duplicate name. -/
def exDup : List Entry := [.defn ⟨"a", .data, []⟩, .defn ⟨"a", .data, []⟩]

/-- `f() = g(); g() = f();` - genuinely mutually recursive functions. -/
def exMutual : List Entry :=
  [.defn ⟨"f", .func, ["g"]⟩, .defn ⟨"g", .func, ["f"]⟩]

/-- A module with two data bindings, a bare statement, and a function. -/
def exModule : List Entry :=
  [.defn ⟨"a", .data, []⟩, .defn ⟨"b", .data, ["a"]⟩,
   .phrase ["b"], .defn ⟨"c", .func, ["b"]⟩]

/-- A sequential module with two data bindings and a bare statement. -/
def exSeq : List Entry :=
  [.defn ⟨"a", .data, []⟩, .defn ⟨"b", .data, ["a"]⟩, .phrase ["b"]]

/-- A function body that references the outer constant `k` and the scope
binding `y` twice. -/
def exCapture : List Entry :=
  [.defn ⟨"f", .func, ["k", "y", "y"]⟩, .defn ⟨"y", .data, []⟩]

/-- `y() = x + x; x = y();` - a function referencing twice a data unit that
stays in progress (pending in an uncompleted SCC) after its first lookup. -/
def exYX : List Entry :=
  [.defn ⟨"y", .func, ["x", "x"]⟩, .defn ⟨"x", .data, ["y"]⟩]

/-- The state of a scope analyzing `exYX` just after unit 0 (`y`) has been
entered (marked in progress, numbered, pushed on both stacks) and before its
body is analyzed: the `k_not_analyzed` entry steps of `analyze_unit` applied
to the freshly registered scope. -/
def stYX1 : ScopeState :=
  { units := [{ defn := ⟨"y", .func, ["x", "x"]⟩, slot := 0,
                state := .inProgress, sccOrd := 0, sccLowlink := 0 },
              { defn := ⟨"x", .data, ["y"]⟩, slot := 1 }],
    dictionary := [("y", ⟨0, 0⟩), ("x", ⟨1, 1⟩)],
    sccStack := [0], analysisStack := [0], sccCount := 1, slotCount := 2 }

/-- The state after the first free-variable lookup of `x` from `y`'s body in
`stYX1`: `x` was entered, its own body resolved (closing the cycle back to
`y`, hence `sccLowlink = 0`), and - since `x`'s SCC is not complete - left in
progress; the non-constant resolution of `x` was stored in `y`'s capture
mapping and replaced by a placeholder. -/
def stYX2 : ScopeState :=
  { units := [{ defn := ⟨"y", .func, ["x", "x"]⟩, slot := 0,
                state := .inProgress, sccOrd := 0, sccLowlink := 0,
                nonlocals := [("x", .letRef "x" 1)] },
              { defn := ⟨"x", .data, ["y"]⟩, slot := 1,
                state := .inProgress, sccOrd := 1, sccLowlink := 0,
                resolved := [.letRef "y" 0] }],
    dictionary := [("y", ⟨0, 0⟩), ("x", ⟨1, 1⟩)],
    sccStack := [1, 0], analysisStack := [0], sccCount := 2, slotCount := 2 }

/-- A scope state in the middle of analyzing the single function unit `f`,
whose body references the outer non-constant name `v` twice. -/
def stW : ScopeState :=
  { units := [{ defn := ⟨"f", .func, ["v", "v"]⟩, slot := 0,
                state := .inProgress, sccOrd := 0, sccLowlink := 0 }],
    dictionary := [("f", ⟨0, 0⟩)], sccStack := [0], analysisStack := [0],
    sccCount := 1, slotCount := 1 }

/-- `stW` after the outer operation bound to `v` has been captured in `f`'s
capture mapping. -/
def stW2 : ScopeState :=
  { units := [{ defn := ⟨"f", .func, ["v", "v"]⟩, slot := 0,
                state := .inProgress, sccOrd := 0, sccLowlink := 0,
                nonlocals := [("v", .letRef "v" 40)] }],
    dictionary := [("f", ⟨0, 0⟩)], sccStack := [0], analysisStack := [0],
    sccCount := 1, slotCount := 1 }

/-- The state reached while analyzing `exADF` at the moment unit 2 (`f`) has
completed its body and popped itself off the analysis stack: `a` and `d` are
still on the current path, `f` closed the cycle back to `a` (lowering its own
lowlink to 0), and line 174's propagation step is about to run with the data
unit `d` as the parent on the analysis stack. -/
def stADF_mid : ScopeState :=
  { units := [{ defn := ⟨"a", .func, ["d"]⟩, slot := 0,
                state := .inProgress, sccOrd := 0, sccLowlink := 0 },
              { defn := ⟨"d", .data, ["f"]⟩, slot := 1,
                state := .inProgress, sccOrd := 1, sccLowlink := 1 },
              { defn := ⟨"f", .func, ["a"]⟩, slot := 2,
                state := .inProgress, sccOrd := 2, sccLowlink := 0,
                resolved := [.symbolicRef "a"],
                nonlocals := [("a", .letRef "a" 0)] }],
    dictionary := [("a", ⟨0, 0⟩), ("d", ⟨1, 1⟩), ("f", ⟨2, 2⟩)],
    sccStack := [2, 1, 0], analysisStack := [1, 0],
    sccCount := 3, slotCount := 3 }

/-- A single in-progress data unit rooting its own (singleton) SCC. -/
def uD : Unit :=
  { defn := ⟨"x", .data, []⟩, slot := 0, state := .inProgress,
    sccOrd := 0, sccLowlink := 0 }

/-- A scope state in which `uD` has just completed its body analysis and sits
alone on the SCC stack. -/
def stD : ScopeState :=
  { units := [uD], dictionary := [("x", ⟨0, 0⟩)], sccStack := [0],
    sccCount := 1, slotCount := 1 }

/-- A one-member function list with one captured free variable, used to
instantiate the grouped-setter construction. -/
def msW : List Unit :=
  [{ defn := ⟨"f", .func, ["y"]⟩, slot := 0, state := .inProgress,
     sccOrd := 0, sccLowlink := 0, resolved := [.symbolicRef "y"],
     nonlocals := [("y", .letRef "y" 5)] }]

/-- A scope with one fully analyzed data unit. -/
def stA1 : ScopeState :=
  { units := [{ defn := ⟨"x", .data, []⟩, slot := 0, state := .analyzed,
                sccOrd := 0, sccLowlink := 0 }],
    dictionary := [("x", ⟨0, 0⟩)], sccCount := 1, slotCount := 1 }

/-- A scope in which the single function unit of `msW` has just completed its
body analysis and roots its (singleton) SCC. -/
def stF : ScopeState :=
  { units := msW, dictionary := [("f", ⟨0, 0⟩)], sccStack := [0],
    sccCount := 1, slotCount := 1 }

/-- A freshly registered scope with one not-yet-analyzed data unit `x = 1;`
(no references). -/
def stN1 : ScopeState :=
  { units := [{ defn := ⟨"x", .data, []⟩ }], dictionary := [("x", ⟨0, 0⟩)],
    slotCount := 1 }

/-- The state carried by a result (the scope outlives a thrown exception). -/
def Res.state {σ α : Type} : Res σ α → σ
  | .ok _ st => st
  | .err _ st => st

/-- The error of a result, if any. -/
def Res.errOf {σ α : Type} : Res σ α → Option AnalysisError
  | .ok _ _ => none
  | .err e _ => some e

/-- The value of a successful result. -/
def Res.valOf {σ α : Type} : Res σ α → Option α
  | .ok a _ => some a
  | .err _ _ => none

/-- The slots written by one action. -/
def Action.writes : Action → List Nat
  | .dataSetter s _ => [s]
  | .moduleDataSetter _ s _ => [s]
  | .functionSetter _ _ _ pairs => pairs.map Prod.fst
  | .statement _ => []

/-- All slots written by an action list, with multiplicity. -/
def writtenSlots (acts : List Action) : List Nat :=
  (acts.map Action.writes).flatten

/-- The slots an expression reads when evaluated: direct and module-indirect
slot references.  Placeholder symbolic references read nothing at
initialization time - they are wired inside the grouped setter's shared
nonlocals, which is exactly the same-SCC exception of the ordering claim. -/
def Expr.reads : Expr → List Nat
  | .letRef _ s => [s]
  | .indirectRef _ _ s => [s]
  | _ => []

/-- The slots a nonlocals-enumeration entry reads when the grouped setter is
installed: a captured operation reads its slots; a member's lambda template
is a constant (the body runs only when the function is later called). -/
def NExpr.reads : NExpr → List Nat
  | .expr e => e.reads
  | .lambdaConst _ _ => []

/-- The slots an action reads when executed. -/
def Action.reads : Action → List Nat
  | .dataSetter _ rhs => (rhs.map Expr.reads).flatten
  | .moduleDataSetter _ _ rhs => (rhs.map Expr.reads).flatten
  | .functionSetter _ _ nonlocalExprs _ =>
      (nonlocalExprs.map NExpr.reads).flatten
  | .statement ops => (ops.map Expr.reads).flatten

/-- Check that an action list is topologically ordered: every slot an action
reads was written by an earlier action - or by the action itself, the
same-SCC allowance of a grouped setter. -/
def topoCheck : List Nat → List Action → Bool
  | _, [] => true
  | written, act :: rest =>
    (act.reads.all fun s => (written ++ act.writes).contains s) &&
      topoCheck (written ++ act.writes) rest

/-- Whether a grouped-setter construction failed as a recursive data
definition. -/
def isRecDataErr : Except AnalysisError Action → Bool
  | .error (.recursiveDataDefinition _) => true
  | _ => false

/-- Whether a grouped-setter construction succeeded. -/
def exceptIsOk : Except AnalysisError Action → Bool
  | .ok _ => true
  | .error _ => false

/-! ## Basic lemmas about the association-list and unit-vector helpers -/

theorem lookupA_isSome_iff {β : Type} (l : List (Atom × β)) (a : Atom) :
    (lookupA l a).isSome = true ↔ a ∈ l.map Prod.fst := by
  induction l with
  | nil => simp [lookupA]
  | cons hd tl ih =>
    obtain ⟨b, v⟩ := hd
    by_cases hba : b = a
    · subst hba; simp [lookupA]
    · simp [lookupA, hba, ih, Ne.symm hba]

theorem lookupA_updateA_self {β : Type} (l : List (Atom × β)) (a : Atom)
    (v : β) : lookupA (updateA l a v) a = some v := by
  induction l with
  | nil => simp [lookupA, updateA]
  | cons hd tl ih =>
    obtain ⟨b, w⟩ := hd
    by_cases hba : b = a
    · subst hba; simp [lookupA, updateA]
    · simp [lookupA, updateA, hba, ih]

theorem lookupA_updateA_ne {β : Type} (l : List (Atom × β)) (a x : Atom)
    (v : β) (hx : x ≠ a) : lookupA (updateA l a v) x = lookupA l x := by
  induction l with
  | nil => simp [lookupA, updateA, Ne.symm hx]
  | cons hd tl ih =>
    obtain ⟨b, w⟩ := hd
    by_cases hba : b = a
    · subst hba
      simp [lookupA, updateA, Ne.symm hx]
    · by_cases hbx : b = x
      · subst hbx; simp [lookupA, updateA, hba]
      · simp [lookupA, updateA, hba, hbx, ih]

theorem updateA_map_fst {β : Type} (l : List (Atom × β)) (a : Atom) (v : β) :
    (updateA l a v).map Prod.fst =
      if a ∈ l.map Prod.fst then l.map Prod.fst else l.map Prod.fst ++ [a] := by
  induction l with
  | nil => simp [updateA]
  | cons hd tl ih =>
    obtain ⟨b, w⟩ := hd
    by_cases hba : b = a
    · subst hba; simp [updateA]
    · simp only [updateA, if_neg hba, List.map_cons]
      rw [ih]
      by_cases hmem : a ∈ tl.map Prod.fst
      · simp [hmem, List.mem_cons, Ne.symm hba]
      · simp [hmem, List.mem_cons, Ne.symm hba]

theorem updateA_keys_nodup {β : Type} (l : List (Atom × β)) (a : Atom) (v : β)
    (h : (l.map Prod.fst).Nodup) : ((updateA l a v).map Prod.fst).Nodup := by
  rw [updateA_map_fst]
  split
  · exact h
  · next hmem =>
    refine h.append (List.nodup_singleton a) ?_
    intro x hx hx2
    rw [List.mem_singleton] at hx2
    subst hx2
    exact hmem hx

theorem updateA_length_of_mem {β : Type} (l : List (Atom × β)) (a : Atom)
    (v : β) (h : (lookupA l a).isSome = true) :
    (updateA l a v).length = l.length := by
  induction l with
  | nil => simp [lookupA] at h
  | cons hd tl ih =>
    obtain ⟨b, w⟩ := hd
    by_cases hba : b = a
    · subst hba; simp [updateA]
    · simp only [lookupA, if_neg hba] at h
      simp [updateA, hba, ih h]

theorem updateA_length_of_not_mem {β : Type} (l : List (Atom × β)) (a : Atom)
    (v : β) (h : lookupA l a = none) :
    (updateA l a v).length = l.length + 1 := by
  induction l with
  | nil => simp [updateA]
  | cons hd tl ih =>
    obtain ⟨b, w⟩ := hd
    by_cases hba : b = a
    · subst hba; simp [lookupA] at h
    · simp only [lookupA, if_neg hba] at h
      simp [updateA, hba, ih h]

theorem getUnit_setUnit_self (st : ScopeState) (i : Nat) (u w : Unit)
    (h : getUnit st i = some w) : getUnit (setUnit st i u) i = some u := by
  unfold getUnit at h ⊢
  unfold setUnit
  have hlt : i < st.units.length := by
    by_contra hge
    rw [List.getElem?_eq_none (by omega)] at h
    exact Option.noConfusion h
  simp [List.getElem?_set, hlt]

theorem getUnit_setUnit_ne (st : ScopeState) (i j : Nat) (u : Unit)
    (h : i ≠ j) : getUnit (setUnit st i u) j = getUnit st j := by
  unfold getUnit setUnit
  simp [List.getElem?_set, h]

theorem mark_analyzed_actions (st : ScopeState) (j : Nat) :
    (mark_analyzed st j).actions = st.actions := by
  unfold mark_analyzed
  cases getUnit st j <;> simp [setUnit]

theorem mark_analyzed_dictionary (st : ScopeState) (j : Nat) :
    (mark_analyzed st j).dictionary = st.dictionary := by
  unfold mark_analyzed
  cases getUnit st j <;> simp [setUnit]

theorem mark_analyzed_sccStack (st : ScopeState) (j : Nat) :
    (mark_analyzed st j).sccStack = st.sccStack := by
  unfold mark_analyzed
  cases getUnit st j <;> simp [setUnit]

theorem getUnit_mark_analyzed_self (st : ScopeState) (i : Nat) (u : Unit)
    (h : getUnit st i = some u) :
    getUnit (mark_analyzed st i) i = some { u with state := .analyzed } := by
  unfold mark_analyzed
  rw [h]
  exact getUnit_setUnit_self st i _ u h

theorem lookupA_updateA_isSome {β : Type} (l : List (Atom × β)) (a x : Atom)
    (v : β) : (lookupA (updateA l a v) x).isSome = true ↔
      x = a ∨ (lookupA l x).isSome = true := by
  by_cases hx : x = a
  · subst hx; simp [lookupA_updateA_self]
  · simp [lookupA_updateA_ne l a x v hx, hx]

theorem list_set_self {α : Type} : ∀ (l : List α) (i : Nat) (a : α),
    l[i]? = some a → l.set i a = l := by
  intro l
  induction l with
  | nil => intro i a h; simp at h
  | cons hd tl ih =>
    intro i a h
    match i with
    | 0 => simp at h; simp [h]
    | i + 1 =>
      simp at h
      simp [List.set, ih i a h]

theorem setUnit_getUnit_self (st : ScopeState) (i : Nat) (u : Unit)
    (h : getUnit st i = some u) : setUnit st i u = st := by
  unfold setUnit
  rw [list_set_self st.units i u h]

theorem updateA_idem {β : Type} (l : List (Atom × β)) (a : Atom) (v : β) :
    updateA (updateA l a v) a v = updateA l a v := by
  induction l with
  | nil => simp [updateA]
  | cons hd tl ih =>
    obtain ⟨b, w⟩ := hd
    by_cases hba : b = a
    · subst hba; simp [updateA]
    · simp [updateA, hba, ih]

/-! ## Evolution lemmas -/

theorem UnitEvolves_refl (u : Unit) : UnitEvolves u u :=
  ⟨rfl, rfl, Nat.le_refl _, Or.inl ⟨Nat.le_refl _, rfl⟩⟩

theorem UnitEvolves_trans {a b c : Unit} (h1 : UnitEvolves a b)
    (h2 : UnitEvolves b c) : UnitEvolves a c := by
  obtain ⟨d1, s1, r1, o1⟩ := h1
  obtain ⟨d2, s2, r2, o2⟩ := h2
  refine ⟨d2.trans d1, s2.trans s1, Nat.le_trans r1 r2, ?_⟩
  rcases o2 with ⟨hl2, ho2⟩ | h2r
  · rcases o1 with ⟨hl1, ho1⟩ | h1r
    · exact Or.inl ⟨Nat.le_trans hl2 hl1, ho2.trans ho1⟩
    · exact Or.inr (by omega)
  · exact Or.inr h2r

theorem Pres_refl (st : ScopeState) : Pres st st :=
  ⟨rfl, rfl, rfl, fun _ u h => ⟨u, h, UnitEvolves_refl u⟩, ⟨[], by simp⟩,
   Nat.le_refl _⟩

theorem Pres_trans {a b c : ScopeState} (h1 : Pres a b) (h2 : Pres b c) :
    Pres a c := by
  obtain ⟨d1, p1, l1, u1, ⟨D1, a1⟩, c1⟩ := h1
  obtain ⟨d2, p2, l2, u2, ⟨D2, a2⟩, c2⟩ := h2
  refine ⟨d2.trans d1, p2.trans p1, l2.trans l1, ?_,
    ⟨D1 ++ D2, by rw [a2, a1, List.append_assoc]⟩, Nat.le_trans c1 c2⟩
  intro j u h
  obtain ⟨v, hv, ev⟩ := u1 j u h
  obtain ⟨w, hw, ew⟩ := u2 j v hv
  exact ⟨w, hw, UnitEvolves_trans ev ew⟩

theorem Pres_setUnit (st : ScopeState) (i : Nat) (u u2 : Unit)
    (h : getUnit st i = some u) (he : UnitEvolves u u2) :
    Pres st (setUnit st i u2) := by
  refine ⟨rfl, rfl, by simp [setUnit], ?_, ⟨[], by simp [setUnit]⟩,
    Nat.le_refl _⟩
  intro j w hw
  by_cases hji : j = i
  · subst hji
    rw [h] at hw
    cases hw
    exact ⟨u2, getUnit_setUnit_self st j u2 u h, he⟩
  · refine ⟨w, ?_, UnitEvolves_refl w⟩
    rw [getUnit_setUnit_ne st i j u2 (fun hc => hji hc.symm)]
    exact hw

theorem Pres_mark_analyzed (st : ScopeState) (i : Nat) :
    Pres st (mark_analyzed st i) := by
  unfold mark_analyzed
  cases hget : getUnit st i with
  | none => exact Pres_refl st
  | some u =>
    refine Pres_setUnit st i u _ hget ⟨rfl, rfl, ?_, Or.inl ⟨Nat.le_refl _, rfl⟩⟩
    cases u.state <;> simp [stateRank]

theorem Pres_stacks (st : ScopeState) (s t : List Nat) :
    Pres st { st with sccStack := s, analysisStack := t } :=
  ⟨rfl, rfl, rfl, fun _ u h => ⟨u, h, UnitEvolves_refl u⟩, ⟨[], by simp⟩,
   Nat.le_refl _⟩

theorem propagate_lowlink_Pres (st : ScopeState) (i : Nat) (id : Option Atom) :
    Pres st ((propagate_lowlink st i id).state) ∧
    ((propagate_lowlink st i id).state).analysisStack = st.analysisStack := by
  cases hstack : st.analysisStack with
  | nil =>
    simp only [propagate_lowlink, hstack, Res.state]
    exact ⟨Pres_refl st, trivial⟩
  | cons p rest =>
    cases hui : getUnit st i with
    | none =>
      simp only [propagate_lowlink, hstack, hui, Res.state]
      exact ⟨Pres_refl st, trivial⟩
    | some ui =>
      cases hpu : getUnit st p with
      | none =>
        simp only [propagate_lowlink, hstack, hui, hpu, Res.state]
        exact ⟨Pres_refl st, trivial⟩
      | some pu =>
        by_cases hlt : ui.sccLowlink < pu.sccLowlink
        · have hp : Pres st
              (setUnit st p { pu with sccLowlink := ui.sccLowlink }) :=
            Pres_setUnit st p pu _ hpu
              ⟨rfl, rfl, Nat.le_refl _, Or.inl ⟨Nat.le_of_lt hlt, rfl⟩⟩
          by_cases hk : ui.defn.kind = .data
          · simp only [propagate_lowlink, hstack, hui, hpu, if_pos hlt,
              if_pos hk, Res.state]
            exact ⟨hp, by simp [setUnit, hstack]⟩
          · simp only [propagate_lowlink, hstack, hui, hpu, if_pos hlt,
              if_neg hk, Res.state]
            exact ⟨hp, by simp [setUnit, hstack]⟩
        · simp only [propagate_lowlink, hstack, hui, hpu, if_neg hlt, Res.state]
          exact ⟨Pres_refl st, trivial⟩

theorem Pres_set_sccStack (st : ScopeState) (s : List Nat) :
    Pres st { st with sccStack := s } :=
  ⟨rfl, rfl, rfl, fun _ u h => ⟨u, h, UnitEvolves_refl u⟩, ⟨[], by simp⟩,
   Nat.le_refl _⟩

theorem mark_analyzed_analysisStack (st : ScopeState) (j : Nat) :
    (mark_analyzed st j).analysisStack = st.analysisStack := by
  unfold mark_analyzed
  cases getUnit st j <;> simp [setUnit]

theorem pop_mark_Pres (i : Nat) : ∀ (stack : List Nat) (st : ScopeState),
    Pres st ((pop_mark i stack st).state) ∧
    ((pop_mark i stack st).state).analysisStack = st.analysisStack := by
  intro stack
  induction stack with
  | nil => intro st; exact ⟨Pres_refl st, rfl⟩
  | cons top rest ih =>
    intro st
    have hm : Pres st { mark_analyzed st top with sccStack := rest } :=
      Pres_trans (Pres_mark_analyzed st top) (Pres_set_sccStack _ rest)
    have hms : ({ mark_analyzed st top with
        sccStack := rest } : ScopeState).analysisStack = st.analysisStack :=
      mark_analyzed_analysisStack st top
    by_cases htop : top = i
    · simp only [pop_mark, if_pos htop, Res.state]
      exact ⟨hm, hms⟩
    · simp only [pop_mark, if_neg htop, Res.state]
      obtain ⟨h1, h2⟩ := ih { mark_analyzed st top with sccStack := rest }
      exact ⟨Pres_trans hm h1, h2.trans hms⟩

theorem Pres_append_actions (st : ScopeState) (Δ : List Action) :
    Pres st { st with actions := st.actions ++ Δ } :=
  ⟨rfl, rfl, rfl, fun _ u h => ⟨u, h, UnitEvolves_refl u⟩, ⟨Δ, rfl⟩,
   Nat.le_refl _⟩

theorem pop_scc_Pres (cfg : Config) (st : ScopeState) (i : Nat) :
    Pres st ((pop_scc cfg st i).state) ∧
    ((pop_scc cfg st i).state).analysisStack = st.analysisStack := by
  cases hui : getUnit st i with
  | none =>
    simp only [pop_scc, hui, Res.state]
    exact ⟨Pres_refl st, trivial⟩
  | some ui =>
    by_cases hlow : ui.sccLowlink = ui.sccOrd
    · by_cases hk : ui.defn.kind = .data
      · cases hstack : st.sccStack with
        | nil =>
          simp only [pop_scc, hui, if_pos hlow, if_pos hk, hstack, Res.state]
          exact ⟨Pres_refl st, trivial⟩
        | cons top rest =>
          simp only [pop_scc, hui, if_pos hlow, if_pos hk, hstack, Res.state]
          have hm : Pres st { mark_analyzed st i with sccStack := rest } :=
            Pres_trans (Pres_mark_analyzed st i) (Pres_set_sccStack _ rest)
          refine ⟨Pres_trans hm (Pres_append_actions _ _), ?_⟩
          exact mark_analyzed_analysisStack st i
      · cases hmem : getUnits st (scc_members st i) with
        | none =>
          simp only [pop_scc, hui, if_pos hlow, if_neg hk, hmem, Res.state]
          exact ⟨Pres_refl st, trivial⟩
        | some members =>
          cases hmfs : make_function_setter cfg members with
          | error e =>
            simp only [pop_scc, hui, if_pos hlow, if_neg hk, hmem, hmfs,
              Res.state]
            exact ⟨Pres_refl st, trivial⟩
          | ok act =>
            simp only [pop_scc, hui, if_pos hlow, if_neg hk, hmem, hmfs,
              Res.state]
            obtain ⟨h1, h2⟩ := pop_mark_Pres i
              ({ st with actions := st.actions ++ [act] } : ScopeState).sccStack
              { st with actions := st.actions ++ [act] }
            exact ⟨Pres_trans (Pres_append_actions st [act]) h1, h2⟩
    · simp only [pop_scc, hui, if_neg hlow, Res.state]
      exact ⟨Pres_refl st, trivial⟩

theorem Pres_set_analysisStack (st : ScopeState) (t : List Nat) :
    Pres st { st with analysisStack := t } :=
  ⟨rfl, rfl, rfl, fun _ u h => ⟨u, h, UnitEvolves_refl u⟩, ⟨[], by simp⟩,
   Nat.le_refl _⟩

theorem enter_unit_Pres (st : ScopeState) (i : Nat) (u : Unit)
    (h : getUnit st i = some u) (hstate : u.state = .notAnalyzed) :
    Pres st (enter_unit st i u) := by
  unfold enter_unit
  refine Pres_trans (Pres_setUnit st i u
    { u with state := .inProgress,
             sccOrd := st.sccCount, sccLowlink := st.sccCount } h
    ⟨rfl, rfl, by simp [hstate, stateRank], Or.inr (Nat.le_refl _)⟩) ?_
  exact ⟨rfl, rfl, rfl, fun _ w hw => ⟨w, hw, UnitEvolves_refl w⟩,
    ⟨[], by simp⟩, Nat.le_succ _⟩

theorem finish_unit_Pres (cfg : Config) (st2 : ScopeState) (i : Nat)
    (id : Option Atom) (exprs : List Expr) :
    Pres st2 ((finish_unit cfg st2 i id exprs).state) ∧
    (∀ (a : PUnit) st', finish_unit cfg st2 i id exprs = .ok a st' →
      st'.analysisStack = st2.analysisStack.tail) := by
  cases hui : getUnit st2 i with
  | none =>
    constructor
    · simp only [finish_unit, hui, Res.state]
      exact Pres_refl st2
    · intro a st' h
      simp only [finish_unit, hui] at h
      exact absurd h (by simp)
  | some ui =>
    have hp3 : Pres st2 ({ setUnit st2 i { ui with resolved := exprs } with
        analysisStack := st2.analysisStack.tail } : ScopeState) :=
      Pres_trans
        (Pres_setUnit st2 i ui { ui with resolved := exprs } hui
          ⟨rfl, rfl, Nat.le_refl _, Or.inl ⟨Nat.le_refl _, rfl⟩⟩)
        (Pres_set_analysisStack (setUnit st2 i { ui with resolved := exprs })
          st2.analysisStack.tail)
    obtain ⟨hp1, hp2⟩ := propagate_lowlink_Pres
      { setUnit st2 i { ui with resolved := exprs } with
        analysisStack := st2.analysisStack.tail } i id
    cases hprop : propagate_lowlink
        { setUnit st2 i { ui with resolved := exprs } with
          analysisStack := st2.analysisStack.tail } i id with
    | err e st4 =>
      constructor
      · simp only [finish_unit, hui, hprop, Res.state]
        rw [hprop] at hp1
        exact Pres_trans hp3 hp1
      · intro a st' h
        simp only [finish_unit, hui, hprop] at h
        exact absurd h (by simp)
    | ok a4 st4 =>
      rw [hprop] at hp1 hp2
      obtain ⟨hq1, hq2⟩ := pop_scc_Pres cfg st4 i
      constructor
      · simp only [finish_unit, hui, hprop, Res.state]
        exact Pres_trans (Pres_trans hp3 hp1) hq1
      · intro a st' h
        simp only [finish_unit, hui, hprop] at h
        rw [h] at hq2
        exact hq2.trans hp2

/-- Preservation bundle for the reentrant analysis: every analysis function
evolves the state within `Pres` - in particular it never touches the
dictionary - and restores the analysis stack when it returns normally. -/
theorem analysis_pres (fuel : Nat) : ∀ (cfg : Config),
    (∀ st i id, Pres st ((analyze_unit cfg fuel st i id).state) ∧
      (∀ (a : PUnit) st2, analyze_unit cfg fuel st i id = .ok a st2 →
        st2.analysisStack = st.analysisStack)) ∧
    (∀ st name,
      Pres st ((Recursive_Scope.single_lookup cfg fuel st name).state) ∧
      (∀ (a : Option Expr) st2,
        Recursive_Scope.single_lookup cfg fuel st name = .ok a st2 →
        st2.analysisStack = st.analysisStack)) ∧
    (∀ st name, Pres st ((Recursive_Scope.lookup cfg fuel st name).state) ∧
      (∀ (a : Option Expr) st2,
        Recursive_Scope.lookup cfg fuel st name = .ok a st2 →
        st2.analysisStack = st.analysisStack)) ∧
    (∀ st owner name,
      Pres st ((Function_Environ.single_lookup cfg fuel st owner name).state) ∧
      (∀ (a : Option Expr) st2,
        Function_Environ.single_lookup cfg fuel st owner name = .ok a st2 →
        st2.analysisStack = st.analysisStack)) ∧
    (∀ st owner refs kind,
      Pres st ((analyze_body cfg fuel st owner refs kind).state) ∧
      (∀ (a : List Expr) st2,
        analyze_body cfg fuel st owner refs kind = .ok a st2 →
        st2.analysisStack = st.analysisStack)) := by
  induction fuel with
  | zero =>
    intro cfg
    refine ⟨?_, ?_, ?_, ?_, ?_⟩
    · intro st i id
      exact ⟨Pres_refl st, fun a st2 h => by simp [analyze_unit] at h⟩
    · intro st name
      exact ⟨Pres_refl st,
        fun a st2 h => by simp [Recursive_Scope.single_lookup] at h⟩
    · intro st name
      exact ⟨Pres_refl st,
        fun a st2 h => by simp [Recursive_Scope.lookup] at h⟩
    · intro st owner name
      exact ⟨Pres_refl st,
        fun a st2 h => by simp [Function_Environ.single_lookup] at h⟩
    · intro st owner refs kind
      exact ⟨Pres_refl st, fun a st2 h => by simp [analyze_body] at h⟩
  | succ fuel ih =>
    intro cfg
    obtain ⟨ihU, ihS, ihL, ihF, ihB⟩ := ih cfg
    refine ⟨?_, ?_, ?_, ?_, ?_⟩
    · -- analyze_unit
      intro st i id
      cases hget : getUnit st i with
      | none =>
        constructor
        · simp only [analyze_unit, hget, Res.state]
          exact Pres_refl st
        · intro a st2 h
          simp [analyze_unit, hget] at h
      | some u =>
        cases hstate : u.state with
        | analyzed =>
          constructor
          · simp only [analyze_unit, hget, hstate, Res.state]
            exact Pres_refl st
          · intro a st2 h
            simp only [analyze_unit, hget, hstate, Res.ok.injEq] at h
            rw [← h.2]
        | inProgress =>
          by_cases hk : u.defn.kind = .data
          · constructor
            · simp only [analyze_unit, hget, hstate, if_pos hk, Res.state]
              exact Pres_refl st
            · intro a st2 h
              simp [analyze_unit, hget, hstate, hk] at h
          · cases hstack : st.analysisStack with
            | nil =>
              constructor
              · simp only [analyze_unit, hget, hstate, if_neg hk, hstack,
                  Res.state]
                exact Pres_refl st
              · intro a st2 h
                simp [analyze_unit, hget, hstate, hk, hstack] at h
            | cons p rest =>
              cases hpu : getUnit st p with
              | none =>
                constructor
                · simp only [analyze_unit, hget, hstate, if_neg hk, hstack,
                    hpu, Res.state]
                  exact Pres_refl st
                · intro a st2 h
                  simp [analyze_unit, hget, hstate, hk, hstack, hpu] at h
              | some pu =>
                constructor
                · simp only [analyze_unit, hget, hstate, if_neg hk, hstack,
                    hpu, Res.state]
                  exact Pres_setUnit st p pu _ hpu
                    ⟨rfl, rfl, Nat.le_refl _,
                     Or.inl ⟨Nat.min_le_left _ _, rfl⟩⟩
                · intro a st2 h
                  simp only [analyze_unit, hget, hstate, if_neg hk, hstack,
                    hpu, Res.ok.injEq] at h
                  rw [← h.2]
                  simp [setUnit, hstack]
        | notAnalyzed =>
          cases hbody : analyze_body cfg fuel (enter_unit st i u) i
              u.defn.refs u.defn.kind with
          | err e st2 =>
            constructor
            · simp only [analyze_unit, hget, hstate, hbody, Res.state]
              have hb := (ihB (enter_unit st i u) i u.defn.refs u.defn.kind).1
              rw [hbody] at hb
              exact Pres_trans (enter_unit_Pres st i u hget hstate) hb
            · intro a st2x h
              simp [analyze_unit, hget, hstate, hbody] at h
          | ok exprs st2 =>
            have hb := (ihB (enter_unit st i u) i u.defn.refs u.defn.kind).1
            have hbs := (ihB (enter_unit st i u) i u.defn.refs u.defn.kind).2
              exprs st2 hbody
            rw [hbody] at hb
            obtain ⟨hf1, hf2⟩ := finish_unit_Pres cfg st2 i id exprs
            constructor
            · simp only [analyze_unit, hget, hstate, hbody, Res.state]
              exact Pres_trans
                (Pres_trans (enter_unit_Pres st i u hget hstate) hb) hf1
            · intro a st2x h
              simp only [analyze_unit, hget, hstate, hbody] at h
              have := hf2 a st2x h
              rw [this, hbs]
              rfl
    · -- Recursive_Scope.single_lookup
      intro st name
      cases hfind : lookupA st.dictionary name with
      | none =>
        constructor
        · simp only [Recursive_Scope.single_lookup, hfind, Res.state]
          exact Pres_refl st
        · intro a st2 h
          simp only [Recursive_Scope.single_lookup, hfind, Res.ok.injEq] at h
          rw [← h.2]
      | some b =>
        cases han : analyze_unit cfg fuel st b.unit_index (some name) with
        | err e st1 =>
          constructor
          · simp only [Recursive_Scope.single_lookup, hfind, han, Res.state]
            have := (ihU st b.unit_index (some name)).1
            rw [han] at this
            exact this
          · intro a st2 h
            simp [Recursive_Scope.single_lookup, hfind, han] at h
        | ok a1 st1 =>
          constructor
          · simp only [Recursive_Scope.single_lookup, hfind, han, Res.state]
            have := (ihU st b.unit_index (some name)).1
            rw [han] at this
            exact this
          · intro a st2 h
            simp only [Recursive_Scope.single_lookup, hfind, han,
              Res.ok.injEq] at h
            rw [← h.2]
            exact (ihU st b.unit_index (some name)).2 a1 st1 han
    · -- Recursive_Scope.lookup
      intro st name
      cases hsl : Recursive_Scope.single_lookup cfg fuel st name with
      | err e st1 =>
        constructor
        · simp only [Recursive_Scope.lookup, hsl, Res.state]
          have := (ihS st name).1
          rw [hsl] at this
          exact this
        · intro a st2 h
          simp [Recursive_Scope.lookup, hsl] at h
      | ok a1 st1 =>
        have hpres := (ihS st name).1
        rw [hsl] at hpres
        have hstk := (ihS st name).2 a1 st1 hsl
        cases a1 with
        | none =>
          constructor
          · simp only [Recursive_Scope.lookup, hsl, Res.state]
            exact hpres
          · intro a st2 h
            simp only [Recursive_Scope.lookup, hsl, Res.ok.injEq] at h
            rw [← h.2]
            exact hstk
        | some m =>
          constructor
          · simp only [Recursive_Scope.lookup, hsl, Res.state]
            exact hpres
          · intro a st2 h
            simp only [Recursive_Scope.lookup, hsl, Res.ok.injEq] at h
            rw [← h.2]
            exact hstk
    · -- Function_Environ.single_lookup
      intro st owner name
      cases hlk : Recursive_Scope.lookup cfg fuel st name with
      | err e st1 =>
        constructor
        · simp only [Function_Environ.single_lookup, hlk, Res.state]
          have := (ihL st name).1
          rw [hlk] at this
          exact this
        · intro a st2 h
          simp [Function_Environ.single_lookup, hlk] at h
      | ok a1 st1 =>
        have hpres := (ihL st name).1
        rw [hlk] at hpres
        have hstk := (ihL st name).2 a1 st1 hlk
        cases a1 with
        | none =>
          constructor
          · simp only [Function_Environ.single_lookup, hlk, Res.state]
            exact hpres
          · intro a st2 h
            simp only [Function_Environ.single_lookup, hlk, Res.ok.injEq] at h
            rw [← h.2]
            exact hstk
        | some m =>
          by_cases hc : isConstant m
          · constructor
            · simp only [Function_Environ.single_lookup, hlk, if_pos hc,
                Res.state]
              exact hpres
            · intro a st2 h
              simp only [Function_Environ.single_lookup, hlk, if_pos hc,
                Res.ok.injEq] at h
              rw [← h.2]
              exact hstk
          · cases hou : getUnit st1 owner with
            | none =>
              constructor
              · simp only [Function_Environ.single_lookup, hlk, if_neg hc,
                  hou, Res.state]
                exact hpres
              · intro a st2 h
                simp [Function_Environ.single_lookup, hlk, hc, hou] at h
            | some ou =>
              constructor
              · simp only [Function_Environ.single_lookup, hlk, if_neg hc,
                  hou, Res.state]
                refine Pres_trans hpres (Pres_setUnit st1 owner ou _ hou
                  ⟨rfl, rfl, Nat.le_refl _, Or.inl ⟨Nat.le_refl _, rfl⟩⟩)
              · intro a st2 h
                simp only [Function_Environ.single_lookup, hlk, if_neg hc,
                  hou, Res.ok.injEq] at h
                rw [← h.2]
                simp [setUnit, hstk]
    · -- analyze_body
      intro st owner refs kind
      cases refs with
      | nil =>
        constructor
        · simp only [analyze_body, Res.state]
          exact Pres_refl st
        · intro a st2 h
          simp only [analyze_body, Res.ok.injEq] at h
          rw [← h.2]
      | cons r rest =>
        cases kind with
        | data =>
          cases hlook : Recursive_Scope.lookup cfg fuel st r with
          | err e st1 =>
            constructor
            · simp only [analyze_body, hlook, Res.state]
              have := (ihL st r).1
              rw [hlook] at this
              exact this
            · intro a st2 h
              simp [analyze_body, hlook] at h
          | ok a1 st1 =>
            have hpres := (ihL st r).1
            rw [hlook] at hpres
            have hstk := (ihL st r).2 a1 st1 hlook
            cases a1 with
            | none =>
              constructor
              · simp only [analyze_body, hlook, Res.state]
                exact hpres
              · intro a st2 h
                simp [analyze_body, hlook] at h
            | some e =>
              cases hrec : analyze_body cfg fuel st1 owner rest .data with
              | err e2 st2 =>
                constructor
                · simp only [analyze_body, hlook, hrec, Res.state]
                  have := (ihB st1 owner rest .data).1
                  rw [hrec] at this
                  exact Pres_trans hpres this
                · intro a st2x h
                  simp [analyze_body, hlook, hrec] at h
              | ok es st2 =>
                have hp2 := (ihB st1 owner rest .data).1
                rw [hrec] at hp2
                have hs2 := (ihB st1 owner rest .data).2 es st2 hrec
                constructor
                · simp only [analyze_body, hlook, hrec, Res.state]
                  exact Pres_trans hpres hp2
                · intro a st2x h
                  simp only [analyze_body, hlook, hrec, Res.ok.injEq] at h
                  rw [← h.2, hs2, hstk]
        | func =>
          cases hlook : Function_Environ.single_lookup cfg fuel st owner r with
          | err e st1 =>
            constructor
            · simp only [analyze_body, hlook, Res.state]
              have := (ihF st owner r).1
              rw [hlook] at this
              exact this
            · intro a st2 h
              simp [analyze_body, hlook] at h
          | ok a1 st1 =>
            have hpres := (ihF st owner r).1
            rw [hlook] at hpres
            have hstk := (ihF st owner r).2 a1 st1 hlook
            cases a1 with
            | none =>
              constructor
              · simp only [analyze_body, hlook, Res.state]
                exact hpres
              · intro a st2 h
                simp [analyze_body, hlook] at h
            | some e =>
              cases hrec : analyze_body cfg fuel st1 owner rest .func with
              | err e2 st2 =>
                constructor
                · simp only [analyze_body, hlook, hrec, Res.state]
                  have := (ihB st1 owner rest .func).1
                  rw [hrec] at this
                  exact Pres_trans hpres this
                · intro a st2x h
                  simp [analyze_body, hlook, hrec] at h
              | ok es st2 =>
                have hp2 := (ihB st1 owner rest .func).1
                rw [hrec] at hp2
                have hs2 := (ihB st1 owner rest .func).2 es st2 hrec
                constructor
                · simp only [analyze_body, hlook, hrec, Res.state]
                  exact Pres_trans hpres hp2
                · intro a st2x h
                  simp only [analyze_body, hlook, hrec, Res.ok.injEq] at h
                  rw [← h.2, hs2, hstk]

theorem analyze_actions_Pres (cfg : Config) (fuel : Nat) :
    ∀ (phrases : List (List Atom)) (st : ScopeState),
    Pres st ((analyze_actions cfg fuel st phrases).state) := by
  intro phrases
  induction phrases with
  | nil =>
    intro st
    simp only [analyze_actions, Res.state]
    exact Pres_refl st
  | cons refs rest ih =>
    intro st
    cases hb : analyze_body cfg fuel st st.units.length refs .data with
    | err e st1 =>
      simp only [analyze_actions, hb, Res.state]
      have := ((analysis_pres fuel cfg).2.2.2.2 st st.units.length refs .data).1
      rw [hb] at this
      exact this
    | ok ops st1 =>
      simp only [analyze_actions, hb, Res.state]
      have h1 := ((analysis_pres fuel cfg).2.2.2.2 st st.units.length refs
        .data).1
      rw [hb] at h1
      exact Pres_trans
        (Pres_trans h1 (Pres_append_actions st1 [.statement ops])) (ih _)

theorem force_units_Pres (cfg : Config) (fuel : Nat) :
    ∀ (count : Nat) (st : ScopeState) (k : Nat),
    Pres st ((force_units cfg fuel count st k).state) := by
  intro count
  induction count with
  | zero =>
    intro st k
    simp only [force_units, Res.state]
    exact Pres_refl st
  | succ count ih =>
    intro st k
    cases hget : getUnit st k with
    | none =>
      simp only [force_units, hget, Res.state]
      exact Pres_refl st
    | some u =>
      by_cases hs : u.state = .notAnalyzed
      · cases han : analyze_unit cfg fuel st k none with
        | err e st1 =>
          simp only [force_units, hget, if_pos hs, han, Res.state]
          have := ((analysis_pres fuel cfg).1 st k none).1
          rw [han] at this
          exact this
        | ok a st1 =>
          simp only [force_units, hget, if_pos hs, han, Res.state]
          have := ((analysis_pres fuel cfg).1 st k none).1
          rw [han] at this
          exact Pres_trans this (ih st1 (k + 1))
      · simp only [force_units, hget, if_neg hs, Res.state]
        exact ih st (k + 1)

/-! ## Registration lemmas -/

theorem list_getElem_concat {α : Type} : ∀ (l : List α) (x : α),
    (l ++ [x])[l.length]? = some x := by
  intro l
  induction l with
  | nil => intro x; rfl
  | cons hd tl ih =>
    intro x
    simp only [List.cons_append, List.length_cons, List.getElem?_cons_succ]
    exact ih x

theorem add_definition_ok_dict (cfg : Config) (st : ScopeState) (d : UnitDef)
    (idx : Nat) (st1 : ScopeState) (hm : cfg.targetIsModule = true)
    (h : Recursive_Scope.add_definition cfg st d = .ok idx st1) :
    lookupA st.dictionary d.name = none ∧
    st1.dictionary = st.dictionary ++
      [(d.name, ⟨st.dictionary.length, st.units.length⟩)] := by
  unfold Recursive_Scope.add_definition Recursive_Scope.add_binding at h
  dsimp only at h
  cases hfind : lookupA st.dictionary d.name with
  | some b =>
    rw [hfind] at h
    exact absurd h (by simp)
  | none =>
    rw [hfind, if_pos hm] at h
    refine ⟨rfl, ?_⟩
    dsimp only [getUnit] at h
    rw [list_getElem_concat st.units { defn := d }] at h
    dsimp only at h
    simp only [Res.ok.injEq] at h
    rw [← h.2]
    simp [setUnit]

theorem add_to_scope_module (cfg : Config) :
    ∀ (entries : List Entry) (st : ScopeState) (a : PUnit) (st2 : ScopeState),
    cfg.targetIsModule = true →
    Recursive_Scope.add_to_scope cfg st entries = .ok a st2 →
    ((st.dictionary.map fun p => p.2.slot_index) =
        List.range st.dictionary.length →
      (st2.dictionary.map fun p => p.2.slot_index) =
        List.range st2.dictionary.length) ∧
    ((st.dictionary.map Prod.fst).Nodup →
      (st2.dictionary.map Prod.fst).Nodup) := by
  intro entries
  induction entries with
  | nil =>
    intro st a st2 hm h
    simp only [Recursive_Scope.add_to_scope, Res.ok.injEq] at h
    rw [← h.2]
    exact ⟨id, id⟩
  | cons e rest ih =>
    intro st a st2 hm h
    cases e with
    | phrase refs =>
      simp only [Recursive_Scope.add_to_scope] at h
      exact ih { st with actionPhrases := st.actionPhrases ++ [refs] }
        a st2 hm h
    | defn d =>
      simp only [Recursive_Scope.add_to_scope] at h
      cases had : Recursive_Scope.add_definition cfg st d with
      | err e1 st1 =>
        rw [had] at h
        exact absurd h (by simp)
      | ok idx st1 =>
        rw [had] at h
        obtain ⟨hfind, hdict⟩ := add_definition_ok_dict cfg st d idx st1 hm had
        obtain ⟨ih1, ih2⟩ := ih st1 a st2 hm h
        constructor
        · intro hc
          refine ih1 ?_
          rw [hdict]
          simp only [List.map_append, List.map_cons, List.map_nil,
            List.length_append, List.length_cons, List.length_nil]
          rw [hc]
          have : st.dictionary.length + 1 = st.dictionary.length + 1 := rfl
          rw [show st.dictionary.length + (0 + 1) =
            st.dictionary.length + 1 by omega, List.range_succ]
        · intro hn
          refine ih2 ?_
          rw [hdict]
          simp only [List.map_append, List.map_cons, List.map_nil]
          refine hn.append (List.nodup_singleton _) ?_
          intro x hx hx2
          rw [List.mem_singleton] at hx2
          subst hx2
          rw [← lookupA_isSome_iff] at hx
          rw [hfind] at hx
          simp at hx

/-! ## Lemmas about the grouped-setter construction -/

theorem seq_analyze_module (cfg : Config) :
    ∀ (entries : List Entry) (st : SeqState) (a : PUnit) (st2 : SeqState),
    cfg.targetIsModule = true →
    Sequential_Scope.analyze cfg st entries = .ok a st2 →
    st.dictionary.map Prod.snd = List.range st.dictionary.length →
    (st.dictionary.map Prod.fst).Nodup →
    st2.dictionary.map Prod.snd = List.range st2.dictionary.length ∧
      (st2.dictionary.map Prod.fst).Nodup := by
  intro entries
  induction entries with
  | nil =>
    intro st a st2 hm h hc hn
    simp only [Sequential_Scope.analyze, Res.ok.injEq] at h
    rw [← h.2]
    exact ⟨hc, hn⟩
  | cons e rest ih =>
    intro st a st2 hm h hc hn
    cases e with
    | defn d =>
      simp only [Sequential_Scope.analyze] at h
      cases hres : Sequential_Scope.resolve cfg st d.refs with
      | error e2 => rw [hres] at h; exact absurd h (by simp)
      | ok resolved =>
        rw [hres] at h
        dsimp only at h
        cases hfind : lookupA st.dictionary d.name with
        | some s =>
          have hab : Sequential_Scope.add_binding cfg st d.name =
              .err (.multiplyDefined d.name) st := by
            unfold Sequential_Scope.add_binding
            rw [hfind]
          rw [hab] at h
          exact absurd h (by simp)
        | none =>
          have hab : Sequential_Scope.add_binding cfg st d.name =
              .ok st.dictionary.length
                { st with dictionary := st.dictionary ++
                    [(d.name, st.dictionary.length)] } := by
            unfold Sequential_Scope.add_binding
            rw [hfind]
            dsimp only
            rw [if_pos hm]
          rw [hab] at h
          dsimp only at h
          cases hend : Sequential_Scope.end_unit cfg
              { st with dictionary := st.dictionary ++
                  [(d.name, st.dictionary.length)] } d
              st.dictionary.length resolved with
          | err e2 stE => rw [hend] at h; exact absurd h (by simp)
          | ok b stE =>
            rw [hend] at h
            dsimp only at h
            have hdE : stE.dictionary = st.dictionary ++
                [(d.name, st.dictionary.length)] := by
              unfold Sequential_Scope.end_unit at hend
              cases hk : d.kind with
              | data =>
                rw [hk] at hend
                dsimp only at hend
                rw [Res.ok.injEq] at hend
                rw [← hend.2]
              | func =>
                rw [hk] at hend
                dsimp only at hend
                exact absurd hend (by
                  simp [Function_Definition.make_setter])
            have hc' : stE.dictionary.map Prod.snd =
                List.range stE.dictionary.length := by
              rw [hdE]
              simp [hc, List.range_succ]
            have hn' : (stE.dictionary.map Prod.fst).Nodup := by
              rw [hdE]
              simp only [List.map_append, List.map_cons, List.map_nil]
              refine hn.append (List.nodup_singleton _) ?_
              intro x hx hx2
              rw [List.mem_singleton] at hx2
              subst hx2
              have hmem := (lookupA_isSome_iff st.dictionary d.name).mpr hx
              rw [hfind] at hmem
              exact absurd hmem (by simp)
            exact ih stE a st2 hm h hc' hn'
    | phrase refs =>
      simp only [Sequential_Scope.analyze] at h
      cases hres : Sequential_Scope.resolve cfg st refs with
      | error e2 => rw [hres] at h; exact absurd h (by simp)
      | ok ops =>
        rw [hres] at h
        dsimp only at h
        exact ih _ a st2 hm h hc hn

theorem mfs_funs_data : ∀ (ms : List Unit) (dict : List (Atom × Nat))
    (exprs : List NExpr) (slot : Nat) (u : Unit),
    u ∈ ms → u.defn.kind = .data →
    ∃ n, mfs_funs ms dict exprs slot = .error (.recursiveDataDefinition n) := by
  intro ms
  induction ms with
  | nil => intro _ _ _ u hu _; exact absurd hu (List.not_mem_nil u)
  | cons v ms ih =>
    intro dict exprs slot u hu hk
    by_cases hv : v.defn.kind = .func
    · have hu' : u ∈ ms := by
        rcases List.mem_cons.mp hu with h | h
        · subst h; rw [hk] at hv; exact absurd hv (by decide)
        · exact h
      obtain ⟨n, hn⟩ := ih (updateA dict v.defn.name slot)
        (exprs ++ [.lambdaConst v.defn.name v.resolved]) (slot + 1) u hu' hk
      exact ⟨n, by simp [mfs_funs, hv, hn]⟩
    · exact ⟨v.defn.name, by simp [mfs_funs, hv]⟩

theorem mfs_funs_spec : ∀ (ms : List Unit) (dict : List (Atom × Nat))
    (exprs : List NExpr) (slot : Nat),
    (∀ u ∈ ms, u.defn.kind = .func) →
    ∃ d, mfs_funs ms dict exprs slot =
        .ok (d, exprs ++ ms.map (fun u => NExpr.lambdaConst u.defn.name u.resolved),
          slot + ms.length, ms.map (fun u => (u.slot, u.resolved))) ∧
      (∀ a, a ∉ ms.map (fun u => u.defn.name) → lookupA d a = lookupA dict a) ∧
      (∀ a, (lookupA d a).isSome = true ↔
        (lookupA dict a).isSome = true ∨ a ∈ ms.map (fun u => u.defn.name)) ∧
      ((dict.map Prod.fst).Nodup → (d.map Prod.fst).Nodup) ∧
      ((ms.map fun u => u.defn.name).Nodup →
        ∀ j (hj : j < ms.length),
          lookupA d ((ms.get ⟨j, hj⟩).defn.name) = some (slot + j)) ∧
      ((ms.map fun u => u.defn.name).Nodup →
        (∀ u ∈ ms, lookupA dict u.defn.name = none) →
        d.length = dict.length + ms.length) := by
  intro ms
  induction ms with
  | nil =>
    intro dict exprs slot _
    refine ⟨dict, by simp [mfs_funs], by simp, by simp, fun h => h, ?_, by simp⟩
    intro _ j hj
    exact absurd hj (by simp)
  | cons u ms ih =>
    intro dict exprs slot hf
    have hfu : u.defn.kind = .func := hf u (List.mem_cons_self u ms)
    obtain ⟨d, hEq, hpres, hiff, hnd, hmem, hlen⟩ :=
      ih (updateA dict u.defn.name slot)
        (exprs ++ [.lambdaConst u.defn.name u.resolved]) (slot + 1)
        (fun w hw => hf w (List.mem_cons_of_mem u hw))
    refine ⟨d, ?_, ?_, ?_, ?_, ?_, ?_⟩
    · have harith : slot + (ms.length + 1) = slot + 1 + ms.length := by omega
      simp only [List.map_cons, List.length_cons, harith]
      simp [mfs_funs, hfu, hEq, List.append_assoc]
    · intro a ha
      simp only [List.map_cons, List.mem_cons, not_or] at ha
      rw [hpres a ha.2, lookupA_updateA_ne dict u.defn.name a slot ha.1]
    · intro a
      rw [hiff a, lookupA_updateA_isSome]
      simp only [List.map_cons, List.mem_cons]
      tauto
    · intro hdn
      exact hnd (updateA_keys_nodup dict u.defn.name slot hdn)
    · intro hnodup j hj
      simp only [List.map_cons, List.nodup_cons] at hnodup
      match j with
      | 0 =>
        have : lookupA d u.defn.name =
            lookupA (updateA dict u.defn.name slot) u.defn.name :=
          hpres u.defn.name hnodup.1
        simp only [List.get]
        rw [this, lookupA_updateA_self, Nat.add_zero]
      | j + 1 =>
        have hj' : j < ms.length := by
          simp only [List.length_cons] at hj; omega
        have := hmem hnodup.2 j hj'
        simp only [List.get]
        rw [this]
        congr 1
        omega
    · intro hnodup habs
      simp only [List.map_cons, List.nodup_cons] at hnodup
      have h1 : (updateA dict u.defn.name slot).length = dict.length + 1 :=
        updateA_length_of_not_mem dict u.defn.name slot
          (habs u (List.mem_cons_self u ms))
      have h2 := hlen hnodup.2 (fun w hw => by
        rw [lookupA_updateA_ne dict u.defn.name w.defn.name slot
          (fun hcontra => hnodup.1 (hcontra ▸ List.mem_map_of_mem (fun x => x.defn.name) hw))]
        exact habs w (List.mem_cons_of_mem u hw))
      rw [h2, h1]
      simp only [List.length_cons]
      omega

theorem mfs_captures_spec : ∀ (nl : List (Atom × Expr))
    (dict : List (Atom × Nat)) (exprs : List NExpr) (slot : Nat),
    ∃ d es s, mfs_captures nl dict exprs slot = (d, es, s) ∧
      (∀ a v, lookupA dict a = some v → lookupA d a = some v) ∧
      ((dict.map Prod.fst).Nodup → (d.map Prod.fst).Nodup) ∧
      (∀ a, (lookupA d a).isSome = true ↔
        (lookupA dict a).isSome = true ∨ a ∈ nl.map Prod.fst) ∧
      (∃ Δ, es = exprs ++ Δ) ∧
      d.length + exprs.length = dict.length + es.length := by
  intro nl
  induction nl with
  | nil =>
    intro dict exprs slot
    exact ⟨dict, exprs, slot, rfl, fun _ _ h => h, fun h => h, by simp,
      ⟨[], by simp⟩, by omega⟩
  | cons hd nl ih =>
    intro dict exprs slot
    obtain ⟨a, e⟩ := hd
    match hfind : lookupA dict a with
    | some v =>
      obtain ⟨d, es, s, hEq, hpres, hnd, hiff, hpre, hlen⟩ := ih dict exprs slot
      refine ⟨d, es, s, by simp [mfs_captures, hfind, hEq], hpres, hnd, ?_,
        hpre, hlen⟩
      intro x
      rw [hiff x]
      simp only [List.map_cons, List.mem_cons]
      constructor
      · tauto
      · rintro (h | h | h)
        · exact Or.inl h
        · subst h; exact Or.inl (by simp [hfind])
        · exact Or.inr h
    | none =>
      obtain ⟨d, es, s, hEq, hpres, hnd, hiff, hpre, hlen⟩ :=
        ih (updateA dict a slot) (exprs ++ [.expr e]) (slot + 1)
      refine ⟨d, es, s, by simp [mfs_captures, hfind, hEq], ?_, ?_, ?_, ?_, ?_⟩
      · intro x v hx
        refine hpres x v ?_
        rw [lookupA_updateA_ne dict a x slot ?_]
        · exact hx
        · intro hxa
          rw [hxa, hfind] at hx
          exact Option.noConfusion hx
      · intro hdn
        exact hnd (updateA_keys_nodup dict a slot hdn)
      · intro x
        rw [hiff x, lookupA_updateA_isSome]
        simp only [List.map_cons, List.mem_cons]
        tauto
      · obtain ⟨Δ, hΔ⟩ := hpre
        exact ⟨NExpr.expr e :: Δ, by simp [hΔ]⟩
      · have h1 : (updateA dict a slot).length = dict.length + 1 :=
          updateA_length_of_not_mem dict a slot hfind
        rw [h1] at hlen
        simp only [List.length_append, List.length_cons, List.length_nil]
          at hlen ⊢
        omega

theorem mfs_all_captures_spec : ∀ (ms : List Unit)
    (dict : List (Atom × Nat)) (exprs : List NExpr) (slot : Nat),
    ∃ d es s, mfs_all_captures ms dict exprs slot = (d, es, s) ∧
      (∀ a v, lookupA dict a = some v → lookupA d a = some v) ∧
      ((dict.map Prod.fst).Nodup → (d.map Prod.fst).Nodup) ∧
      (∀ a, (lookupA d a).isSome = true ↔ (lookupA dict a).isSome = true ∨
        ∃ u, u ∈ ms ∧ a ∈ u.nonlocals.map Prod.fst) ∧
      (∃ Δ, es = exprs ++ Δ) ∧
      d.length + exprs.length = dict.length + es.length := by
  intro ms
  induction ms with
  | nil =>
    intro dict exprs slot
    exact ⟨dict, exprs, slot, rfl, fun _ _ h => h, fun h => h, by simp,
      ⟨[], by simp⟩, by omega⟩
  | cons u ms ih =>
    intro dict exprs slot
    obtain ⟨dc, ec, sc, hEqc, hpresc, hndc, hiffc, hprec, hlenc⟩ :=
      mfs_captures_spec u.nonlocals dict exprs slot
    obtain ⟨d, es, s, hEq, hpres, hnd, hiff, hpre, hlen⟩ := ih dc ec sc
    refine ⟨d, es, s, by simp [mfs_all_captures, hEqc, hEq], ?_, ?_, ?_, ?_, ?_⟩
    · intro a v ha
      exact hpres a v (hpresc a v ha)
    · intro hdn
      exact hnd (hndc hdn)
    · intro a
      rw [hiff a, hiffc a]
      constructor
      · rintro ((h | h) | ⟨w, hw, hmem⟩)
        · exact Or.inl h
        · exact Or.inr ⟨u, List.mem_cons_self u ms, h⟩
        · exact Or.inr ⟨w, List.mem_cons_of_mem u hw, hmem⟩
      · rintro (h | ⟨w, hw, hmem⟩)
        · exact Or.inl (Or.inl h)
        · rcases List.mem_cons.mp hw with hwu | hwm
          · subst hwu; exact Or.inl (Or.inr hmem)
          · exact Or.inr ⟨w, hwm, hmem⟩
    · obtain ⟨Δ1, h1⟩ := hprec
      obtain ⟨Δ2, h2⟩ := hpre
      exact ⟨Δ1 ++ Δ2, by simp [h2, h1]⟩
    · have h1 : dc.length + exprs.length = dict.length + ec.length := hlenc
      have h2 : d.length + ec.length = dc.length + es.length := hlen
      omega

/-! ## Evaluation lemmas for the concrete instances

Each lemma computes one concrete analysis run of the interpreter; the final
states are spelled out literally.  They are proved by stepwise rewriting with
the interpreter's equations (whole-run kernel evaluation of the reentrant
interpreter is intractable). -/

theorem getUnit_mark_analyzed_ne (st : ScopeState) (j i : Nat) (h : j ≠ i) :
    getUnit (mark_analyzed st j) i = getUnit st i := by
  unfold mark_analyzed
  cases getUnit st j with
  | none => rfl
  | some w => exact getUnit_setUnit_ne st j i _ h

theorem pop_mark_marks (i : Nat) : ∀ (stack : List Nat) (st : ScopeState)
    (a : PUnit) (st' : ScopeState), pop_mark i stack st = .ok a st' →
    ∀ u, getUnit st i = some u →
      getUnit st' i = some { u with state := .analyzed } := by
  intro stack
  induction stack with
  | nil =>
    intro st a st' h
    simp [pop_mark] at h
  | cons top rest ih =>
    intro st a st' h u hu
    by_cases htop : top = i
    · subst htop
      have hstep : pop_mark top (top :: rest) st =
          .ok ⟨⟩ { mark_analyzed st top with sccStack := rest } := by
        simp [pop_mark]
      rw [hstep, Res.ok.injEq] at h
      rw [← h.2]
      show getUnit (mark_analyzed st top) top = _
      exact getUnit_mark_analyzed_self st top u hu
    · simp only [pop_mark, if_neg htop] at h
      refine ih _ a st' h u ?_
      show getUnit (mark_analyzed st top) i = some u
      rw [getUnit_mark_analyzed_ne st top i htop]
      exact hu

theorem pop_mark_ok (i : Nat) : ∀ (stack : List Nat) (st : ScopeState),
    i ∈ stack → ∃ st', pop_mark i stack st = .ok ⟨⟩ st' := by
  intro stack
  induction stack with
  | nil =>
    intro st h
    exact absurd h (List.not_mem_nil i)
  | cons top rest ih =>
    intro st h
    by_cases htop : top = i
    · subst htop
      refine ⟨{ mark_analyzed st top with sccStack := rest }, ?_⟩
      simp [pop_mark]
    · have hmem : i ∈ rest := by
        rcases List.mem_cons.mp h with h1 | h1
        · exact absurd h1.symm htop
        · exact h1
      obtain ⟨st', hst'⟩ := ih { mark_analyzed st top with sccStack := rest }
        hmem
      refine ⟨st', ?_⟩
      simp only [pop_mark, if_neg htop]
      exact hst'

theorem pop_mark_actions (i : Nat) : ∀ (stack : List Nat) (st : ScopeState)
    (a : PUnit) (st' : ScopeState), pop_mark i stack st = .ok a st' →
    st'.actions = st.actions := by
  intro stack
  induction stack with
  | nil =>
    intro st a st' h
    simp [pop_mark] at h
  | cons top rest ih =>
    intro st a st' h
    by_cases htop : top = i
    · subst htop
      have hstep : pop_mark top (top :: rest) st =
          .ok ⟨⟩ { mark_analyzed st top with sccStack := rest } := by
        simp [pop_mark]
      rw [hstep, Res.ok.injEq] at h
      rw [← h.2]
      show (mark_analyzed st top).actions = st.actions
      exact mark_analyzed_actions st top
    · simp only [pop_mark, if_neg htop] at h
      have := ih _ a st' h
      rw [this]
      show (mark_analyzed st top).actions = st.actions
      exact mark_analyzed_actions st top

theorem analyze_unit_ok_shape (cfg : Config) (fuel : Nat) (st : ScopeState)
    (i : Nat) (id : Option Atom) (a : PUnit) (st' : ScopeState)
    (h : analyze_unit cfg (fuel + 1) st i id = .ok a st') :
    ∃ u, getUnit st i = some u ∧
      ((u.state = .analyzed ∧ st' = st) ∨
       (u.state = .inProgress ∧ u.defn.kind = .func ∧
        ∃ p rest pu, st.analysisStack = p :: rest ∧ getUnit st p = some pu ∧
          st' = setUnit st p
            { pu with sccLowlink := min pu.sccLowlink u.sccOrd }) ∨
       (u.state = .notAnalyzed ∧
        ∃ exprs st2, analyze_body cfg fuel (enter_unit st i u) i
            u.defn.refs u.defn.kind = .ok exprs st2 ∧
          finish_unit cfg st2 i id exprs = .ok a st')) := by
  cases hget : getUnit st i with
  | none => simp [analyze_unit, hget] at h
  | some u =>
    refine ⟨u, rfl, ?_⟩
    simp only [analyze_unit, hget] at h
    cases hstate : u.state with
    | analyzed =>
      rw [hstate] at h
      dsimp only at h
      rw [Res.ok.injEq] at h
      exact Or.inl ⟨rfl, h.2.symm⟩
    | inProgress =>
      rw [hstate] at h
      dsimp only at h
      by_cases hkind : u.defn.kind = DefKind.data
      · rw [if_pos hkind] at h
        exact absurd h (by simp)
      · rw [if_neg hkind] at h
        have hfunc : u.defn.kind = DefKind.func := by
          cases hk : u.defn.kind
          · exact absurd hk hkind
          · rfl
        cases hstack : st.analysisStack with
        | nil =>
          rw [hstack] at h
          exact absurd h (by simp)
        | cons p rest =>
          rw [hstack] at h
          dsimp only at h
          cases hpu : getUnit st p with
          | none =>
            rw [hpu] at h
            exact absurd h (by simp)
          | some pu =>
            rw [hpu] at h
            dsimp only at h
            rw [Res.ok.injEq] at h
            exact Or.inr
              (Or.inl ⟨rfl, hfunc, p, rest, pu, rfl, hpu, h.2.symm⟩)
    | notAnalyzed =>
      rw [hstate] at h
      dsimp only at h
      cases hbody : analyze_body cfg fuel (enter_unit st i u) i
          u.defn.refs u.defn.kind with
      | err e stE =>
        rw [hbody] at h
        exact absurd h (by simp)
      | ok exprs st2 =>
        rw [hbody] at h
        dsimp only at h
        exact Or.inr (Or.inr ⟨rfl, exprs, st2, rfl, h⟩)

theorem propagate_lowlink_ok_shape (st : ScopeState) (i : Nat)
    (id : Option Atom) (b : PUnit) (st4 : ScopeState)
    (h : propagate_lowlink st i id = .ok b st4) :
    (st.analysisStack = [] ∧ st4 = st) ∨
    (∃ p rest ui pu, st.analysisStack = p :: rest ∧ getUnit st i = some ui ∧
      getUnit st p = some pu ∧
      ((ui.sccLowlink < pu.sccLowlink ∧
        st4 = setUnit st p { pu with sccLowlink := ui.sccLowlink }) ∨
       (¬ ui.sccLowlink < pu.sccLowlink ∧ st4 = st))) := by
  unfold propagate_lowlink at h
  cases hstack : st.analysisStack with
  | nil =>
    rw [hstack] at h
    dsimp only at h
    rw [Res.ok.injEq] at h
    exact Or.inl ⟨rfl, h.2.symm⟩
  | cons p rest =>
    rw [hstack] at h
    dsimp only at h
    cases hui : getUnit st i with
    | none =>
      cases hpu : getUnit st p with
      | none => rw [hui, hpu] at h; exact absurd h (by simp)
      | some pu => rw [hui, hpu] at h; exact absurd h (by simp)
    | some ui =>
      cases hpu : getUnit st p with
      | none => rw [hui, hpu] at h; exact absurd h (by simp)
      | some pu =>
        rw [hui, hpu] at h
        dsimp only at h
        by_cases hlt : ui.sccLowlink < pu.sccLowlink
        · rw [if_pos hlt] at h
          by_cases hkd : ui.defn.kind = DefKind.data
          · rw [if_pos hkd] at h
            exact absurd h (by simp)
          · rw [if_neg hkd] at h
            rw [Res.ok.injEq] at h
            exact Or.inr ⟨p, rest, ui, pu, rfl, rfl, hpu,
              Or.inl ⟨hlt, h.2.symm⟩⟩
        · rw [if_neg hlt] at h
          rw [Res.ok.injEq] at h
          exact Or.inr ⟨p, rest, ui, pu, rfl, rfl, hpu,
            Or.inr ⟨hlt, h.2.symm⟩⟩

theorem pop_scc_ok_ready (cfg : Config) (st : ScopeState) (i : Nat)
    (a : PUnit) (st' : ScopeState) (u : Unit) (hu : getUnit st i = some u)
    (h : pop_scc cfg st i = .ok a st') :
    (∃ w, getUnit st' i = some w ∧ w.state = .analyzed) ∨
    (¬ u.sccLowlink = u.sccOrd ∧ st' = st) := by
  unfold pop_scc at h
  rw [hu] at h
  dsimp only at h
  by_cases hroot : u.sccLowlink = u.sccOrd
  · rw [if_pos hroot] at h
    by_cases hkd : u.defn.kind = DefKind.data
    · rw [if_pos hkd] at h
      cases hss : st.sccStack with
      | nil => rw [hss] at h; exact absurd h (by simp)
      | cons top rest =>
        rw [hss] at h
        dsimp only at h
        rw [Res.ok.injEq] at h
        refine Or.inl ⟨{ u with state := .analyzed }, ?_, rfl⟩
        rw [← h.2]
        show getUnit (mark_analyzed st i) i = _
        exact getUnit_mark_analyzed_self st i u hu
    · rw [if_neg hkd] at h
      cases hgu : getUnits st (scc_members st i) with
      | none => rw [hgu] at h; exact absurd h (by simp)
      | some members =>
        rw [hgu] at h
        dsimp only at h
        cases hmk : make_function_setter cfg members with
        | error e => rw [hmk] at h; exact absurd h (by simp)
        | ok act =>
          rw [hmk] at h
          dsimp only at h
          refine Or.inl ⟨{ u with state := .analyzed }, ?_, rfl⟩
          exact pop_mark_marks i _ _ a st' h u hu
  · rw [if_neg hroot] at h
    rw [Res.ok.injEq] at h
    exact Or.inr ⟨hroot, h.2.symm⟩

theorem finish_unit_ready (cfg : Config) (st2 : ScopeState) (i : Nat)
    (id : Option Atom) (exprs : List Expr) (a : PUnit) (st' : ScopeState)
    (u2 : Unit) (hu2 : getUnit st2 i = some u2)
    (hrank : u2.state ≠ UnitState.notAnalyzed)
    (hlowle : u2.sccLowlink ≤ u2.sccOrd)
    (hfin : finish_unit cfg st2 i id exprs = .ok a st') : ReadyRow st' i := by
  obtain ⟨ud, usl, ust, uso, ulk, urv, unl⟩ := u2
  unfold finish_unit at hfin
  rw [hu2] at hfin
  dsimp only at hfin
  cases hprop : propagate_lowlink
      { setUnit st2 i ⟨ud, usl, ust, uso, ulk, exprs, unl⟩ with
        analysisStack := st2.analysisStack.tail } i id with
  | err e st4 => rw [hprop] at hfin; exact absurd hfin (by simp)
  | ok b st4 =>
    rw [hprop] at hfin
    dsimp only at hfin
    have hu3 : getUnit
        { setUnit st2 i ⟨ud, usl, ust, uso, ulk, exprs, unl⟩ with
          analysisStack := st2.analysisStack.tail } i =
        some ⟨ud, usl, ust, uso, ulk, exprs, unl⟩ :=
      getUnit_setUnit_self st2 i _ _ hu2
    rcases propagate_lowlink_ok_shape _ i id b st4 hprop with
      ⟨hnil, hst4⟩ | ⟨p, rest, ui, pu, hstk, hui, hpu, hdisj⟩
    · rw [hst4] at hfin
      rcases pop_scc_ok_ready cfg _ i a st' _ hu3 hfin with
        ⟨w, hw, hwstate⟩ | ⟨_, hst'⟩
      · exact ⟨w, hw, Or.inl hwstate⟩
      · subst hst'
        cases ust with
        | notAnalyzed => exact absurd rfl hrank
        | analyzed => exact ⟨_, hu3, Or.inl rfl⟩
        | inProgress =>
          refine ⟨_, hu3, Or.inr ⟨rfl, ?_⟩⟩
          intro q qrest qu hqs hqu
          have hqs2 : ([] : List Nat) = q :: qrest := hnil.symm.trans hqs
          exact absurd hqs2 (by simp)
    · have hui3 : ui = ⟨ud, usl, ust, uso, ulk, exprs, unl⟩ :=
        Option.some.inj (hui.symm.trans hu3)
      rw [hui3] at hdisj
      rcases hdisj with ⟨hlt, hst4⟩ | ⟨hnlt, hst4⟩
      · have hpi : p ≠ i := by
          intro hpi
          subst hpi
          have hppu : (⟨ud, usl, ust, uso, ulk, exprs, unl⟩ : Unit) = pu :=
            Option.some.inj (hu3.symm.trans hpu)
          rw [← hppu] at hlt
          exact absurd hlt (lt_irrefl _)
        rw [hst4] at hfin
        have hgot4 : getUnit
            (setUnit { setUnit st2 i ⟨ud, usl, ust, uso, ulk, exprs, unl⟩ with
                analysisStack := st2.analysisStack.tail } p
              { pu with sccLowlink :=
                  (⟨ud, usl, ust, uso, ulk, exprs, unl⟩ : Unit).sccLowlink }) i =
            some ⟨ud, usl, ust, uso, ulk, exprs, unl⟩ := by
          rw [getUnit_setUnit_ne _ p i _ hpi]
          exact hu3
        rcases pop_scc_ok_ready cfg _ i a st' _ hgot4 hfin with
          ⟨w, hw, hwstate⟩ | ⟨_, hst'⟩
        · exact ⟨w, hw, Or.inl hwstate⟩
        · subst hst'
          cases ust with
          | notAnalyzed => exact absurd rfl hrank
          | analyzed => exact ⟨_, hgot4, Or.inl rfl⟩
          | inProgress =>
            refine ⟨_, hgot4, Or.inr ⟨rfl, ?_⟩⟩
            intro q qrest qu hqs hqu
            have hqs2 : p :: rest = q :: qrest := hstk.symm.trans hqs
            injection hqs2 with hq1 hq2
            subst hq1
            have hrow := getUnit_setUnit_self
              { setUnit st2 i
                  ⟨ud, usl, UnitState.inProgress, uso, ulk, exprs, unl⟩ with
                analysisStack := st2.analysisStack.tail } p
              { pu with sccLowlink :=
                  ((⟨ud, usl, UnitState.inProgress, uso, ulk, exprs, unl⟩ :
                    Unit)).sccLowlink } pu hpu
            have hqqu := Option.some.inj (hrow.symm.trans hqu)
            rw [← hqqu]
            exact hlowle
      · rw [hst4] at hfin
        rcases pop_scc_ok_ready cfg _ i a st' _ hu3 hfin with
          ⟨w, hw, hwstate⟩ | ⟨_, hst'⟩
        · exact ⟨w, hw, Or.inl hwstate⟩
        · subst hst'
          cases ust with
          | notAnalyzed => exact absurd rfl hrank
          | analyzed => exact ⟨_, hu3, Or.inl rfl⟩
          | inProgress =>
            refine ⟨_, hu3, Or.inr ⟨rfl, ?_⟩⟩
            intro q qrest qu hqs hqu
            have hqs2 : p :: rest = q :: qrest := hstk.symm.trans hqs
            injection hqs2 with hq1 hq2
            subst hq1
            have hqqu := Option.some.inj (hpu.symm.trans hqu)
            rw [← hqqu]
            exact le_trans (Nat.le_of_not_lt hnlt) hlowle

theorem analyze_unit_ready (cfg : Config) (fuel : Nat) (st : ScopeState)
    (i : Nat) (id : Option Atom) (a : PUnit) (st' : ScopeState)
    (h : analyze_unit cfg (fuel + 1) st i id = .ok a st') : ReadyRow st' i := by
  obtain ⟨u, hu, hcase⟩ := analyze_unit_ok_shape cfg fuel st i id a st' h
  rcases hcase with ⟨hstate, hst'⟩ |
    ⟨hstate, hkind, p, rest, pu, hstack, hpu, hst'⟩ |
    ⟨hstate, exprs, st2, hbody, hfin⟩
  · subst hst'
    exact ⟨u, hu, Or.inl hstate⟩
  · subst hst'
    by_cases hpi : p = i
    · subst hpi
      have hup : pu = u := by
        rw [hu] at hpu
        exact (Option.some.inj hpu).symm
      subst hup
      refine ⟨{ pu with sccLowlink := min pu.sccLowlink pu.sccOrd },
        getUnit_setUnit_self st p _ pu hpu, Or.inr ⟨hstate, ?_⟩⟩
      intro q qrest qu hqs hqu
      have hqs' : st.analysisStack = q :: qrest := hqs
      rw [hstack] at hqs'
      injection hqs' with hq1 hq2
      subst hq1
      rw [getUnit_setUnit_self st p _ pu hpu] at hqu
      rw [← Option.some.inj hqu]
      exact Nat.min_le_right _ _
    · refine ⟨u, ?_, Or.inr ⟨hstate, ?_⟩⟩
      · rw [getUnit_setUnit_ne st p i _ hpi]
        exact hu
      · intro q qrest qu hqs hqu
        have hqs' : st.analysisStack = q :: qrest := hqs
        rw [hstack] at hqs'
        injection hqs' with hq1 hq2
        subst hq1
        rw [getUnit_setUnit_self st p _ pu hpu] at hqu
        rw [← Option.some.inj hqu]
        exact Nat.min_le_right _ _
  · have hE : getUnit (enter_unit st i u) i =
        some { u with state := .inProgress, sccOrd := st.sccCount,
                      sccLowlink := st.sccCount } := by
      unfold enter_unit
      exact getUnit_setUnit_self st i _ u hu
    have hbodyPres : Pres (enter_unit st i u) st2 := by
      have hp := ((analysis_pres fuel cfg).2.2.2.2 (enter_unit st i u) i
        u.defn.refs u.defn.kind).1
      rw [hbody] at hp
      exact hp
    obtain ⟨u2, hu2, hev⟩ := hbodyPres.2.2.2.1 i _ hE
    have hrank : u2.state ≠ UnitState.notAnalyzed := by
      intro hcon
      have hr := hev.2.2.1
      rw [hcon] at hr
      simp [stateRank] at hr
    have hlowle : u2.sccLowlink ≤ u2.sccOrd := by
      rcases hev.2.2.2 with ⟨hle, heq⟩ | hle2
      · rw [heq]
        exact hle
      · exact hle2
    exact finish_unit_ready cfg st2 i id exprs a st' u2 hu2 hrank hlowle hfin

theorem ReadyRow_setUnit (st : ScopeState) (i o : Nat) (ou ou' : Unit)
    (ho : getUnit st o = some ou)
    (hstate : ou'.state = ou.state) (hord : ou'.sccOrd = ou.sccOrd)
    (hlow : ou'.sccLowlink = ou.sccLowlink)
    (hr : ReadyRow st i) : ReadyRow (setUnit st o ou') i := by
  obtain ⟨u1, hu1, hd⟩ := hr
  by_cases hoi : o = i
  · subst hoi
    have huo : u1 = ou := by rw [ho] at hu1; exact (Option.some.inj hu1).symm
    subst huo
    refine ⟨ou', getUnit_setUnit_self st o ou' u1 ho, ?_⟩
    cases hd with
    | inl ha => exact Or.inl (by rw [hstate]; exact ha)
    | inr hb =>
      refine Or.inr ⟨by rw [hstate]; exact hb.1, ?_⟩
      intro q qrest qu hqs hqu
      have hqs' : st.analysisStack = q :: qrest := hqs
      rw [hord]
      by_cases hqo : q = o
      · subst hqo
        rw [getUnit_setUnit_self st q ou' u1 ho] at hqu
        rw [← Option.some.inj hqu, hlow]
        exact hb.2 q qrest u1 hqs' ho
      · rw [getUnit_setUnit_ne st o q ou' (fun hh => hqo hh.symm)] at hqu
        exact hb.2 q qrest qu hqs' hqu
  · refine ⟨u1, ?_, ?_⟩
    · rw [getUnit_setUnit_ne st o i ou' hoi]
      exact hu1
    · cases hd with
      | inl ha => exact Or.inl ha
      | inr hb =>
        refine Or.inr ⟨hb.1, ?_⟩
        intro q qrest qu hqs hqu
        have hqs' : st.analysisStack = q :: qrest := hqs
        by_cases hqo : q = o
        · subst hqo
          rw [getUnit_setUnit_self st q ou' ou ho] at hqu
          rw [← Option.some.inj hqu, hlow]
          exact hb.2 q qrest ou hqs' ho
        · rw [getUnit_setUnit_ne st o q ou' (fun hh => hqo hh.symm)] at hqu
          exact hb.2 q qrest qu hqs' hqu

theorem analyze_unit_of_ready (cfg : Config) (fuel : Nat) (st : ScopeState)
    (i : Nat) (id : Option Atom) (a : PUnit) (st' : ScopeState)
    (hr : ReadyRow st i)
    (h : analyze_unit cfg (fuel + 1) st i id = .ok a st') : st' = st := by
  obtain ⟨u1, hu1, hd⟩ := hr
  simp only [analyze_unit, hu1] at h
  cases hd with
  | inl ha =>
    rw [ha] at h
    dsimp only at h
    rw [Res.ok.injEq] at h
    exact h.2.symm
  | inr hb =>
    rw [hb.1] at h
    dsimp only at h
    by_cases hkind : u1.defn.kind = DefKind.data
    · rw [if_pos hkind] at h
      exact absurd h (by simp)
    · rw [if_neg hkind] at h
      cases hstack : st.analysisStack with
      | nil =>
        rw [hstack] at h
        exact absurd h (by simp)
      | cons p rest =>
        rw [hstack] at h
        dsimp only at h
        cases hpu : getUnit st p with
        | none =>
          rw [hpu] at h
          exact absurd h (by simp)
        | some pu =>
          rw [hpu] at h
          dsimp only at h
          rw [Res.ok.injEq] at h
          have hbound := hb.2 p rest pu hstack hpu
          have hmin : min pu.sccLowlink u1.sccOrd = pu.sccLowlink :=
            Nat.min_eq_left hbound
          rw [← h.2, hmin]
          have heta : { pu with sccLowlink := pu.sccLowlink } = pu := rfl
          rw [heta]
          exact setUnit_getUnit_self st p pu hpu

theorem lookup_ok_shape (cfg : Config) (fuel : Nat) (st : ScopeState)
    (name : Atom) (mo : Option Expr) (stL : ScopeState)
    (h : Recursive_Scope.lookup cfg (fuel + 3) st name = .ok mo stL) :
    (lookupA st.dictionary name = none ∧ stL = st ∧ mo = cfg.outer name) ∨
    (∃ b a, lookupA st.dictionary name = some b ∧
      analyze_unit cfg (fuel + 1) st b.unit_index (some name) = .ok a stL ∧
      mo = some (mk_ref cfg name b.slot_index)) := by
  rw [show fuel + 3 = fuel + 2 + 1 from rfl] at h
  simp only [Recursive_Scope.lookup] at h
  cases hS : Recursive_Scope.single_lookup cfg (fuel + 2) st name with
  | err e stE => rw [hS] at h; exact absurd h (by simp)
  | ok so stS =>
    rw [hS] at h
    rw [show fuel + 2 = fuel + 1 + 1 from rfl] at hS
    simp only [Recursive_Scope.single_lookup] at hS
    cases hdict : lookupA st.dictionary name with
    | none =>
      rw [hdict] at hS
      dsimp only at hS
      rw [Res.ok.injEq] at hS
      obtain ⟨hso, hstS⟩ := hS
      rw [← hso, ← hstS] at h
      dsimp only at h
      rw [Res.ok.injEq] at h
      exact Or.inl ⟨rfl, h.2.symm, h.1.symm⟩
    | some b =>
      rw [hdict] at hS
      dsimp only at hS
      cases hA : analyze_unit cfg (fuel + 1) st b.unit_index (some name) with
      | err e stE => rw [hA] at hS; exact absurd hS (by simp)
      | ok a stA =>
        rw [hA] at hS
        dsimp only at hS
        rw [Res.ok.injEq] at hS
        obtain ⟨hso, hstS⟩ := hS
        rw [← hso, ← hstS] at h
        dsimp only at h
        rw [Res.ok.injEq] at h
        refine Or.inr ⟨b, a, rfl, ?_, h.1.symm⟩
        rw [← h.2]
        exact hA

theorem pop_scc_actions (cfg : Config) (st : ScopeState) (i : Nat)
    (a : PUnit) (st' : ScopeState) (h : pop_scc cfg st i = .ok a st') :
    st'.actions = st.actions ∨ ∃ act, st'.actions = st.actions ++ [act] := by
  unfold pop_scc at h
  cases hu : getUnit st i with
  | none => rw [hu] at h; exact absurd h (by simp)
  | some u =>
    rw [hu] at h
    dsimp only at h
    by_cases hroot : u.sccLowlink = u.sccOrd
    · rw [if_pos hroot] at h
      by_cases hkd : u.defn.kind = DefKind.data
      · rw [if_pos hkd] at h
        cases hss : st.sccStack with
        | nil => rw [hss] at h; exact absurd h (by simp)
        | cons top rest =>
          rw [hss] at h
          dsimp only at h
          rw [Res.ok.injEq] at h
          refine Or.inr
            ⟨Data_Definition.make_setter cfg.moduleSlot u.slot u.resolved,
             ?_⟩
          rw [← h.2]
          show (mark_analyzed st i).actions ++ _ = st.actions ++ _
          rw [mark_analyzed_actions]
      · rw [if_neg hkd] at h
        cases hgu : getUnits st (scc_members st i) with
        | none => rw [hgu] at h; exact absurd h (by simp)
        | some members =>
          rw [hgu] at h
          dsimp only at h
          cases hmk : make_function_setter cfg members with
          | error e => rw [hmk] at h; exact absurd h (by simp)
          | ok act =>
            rw [hmk] at h
            dsimp only at h
            refine Or.inr ⟨act, ?_⟩
            exact pop_mark_actions i _ _ a st' h
    · rw [if_neg hroot] at h
      rw [Res.ok.injEq] at h
      exact Or.inl (by rw [← h.2])

theorem finish_unit_actions (cfg : Config) (st2 : ScopeState) (i : Nat)
    (id : Option Atom) (exprs : List Expr) (a : PUnit) (st' : ScopeState)
    (h : finish_unit cfg st2 i id exprs = .ok a st') :
    st'.actions = st2.actions ∨ ∃ act, st'.actions = st2.actions ++ [act] :=
  by
  unfold finish_unit at h
  cases hu2 : getUnit st2 i with
  | none => rw [hu2] at h; exact absurd h (by simp)
  | some u2 =>
    rw [hu2] at h
    dsimp only at h
    cases hprop : propagate_lowlink
        { setUnit st2 i { u2 with resolved := exprs } with
          analysisStack := st2.analysisStack.tail } i id with
    | err e st4 => rw [hprop] at h; exact absurd h (by simp)
    | ok b st4 =>
      rw [hprop] at h
      dsimp only at h
      have h4 : st4.actions = st2.actions := by
        rcases propagate_lowlink_ok_shape _ i id b st4 hprop with
          ⟨_, hst4⟩ | ⟨p, rest, ui, pu, _, _, _, hdisj⟩
        · rw [hst4]
          rfl
        · rcases hdisj with ⟨_, hst4⟩ | ⟨_, hst4⟩ <;> (rw [hst4]; rfl)
      rw [← h4]
      exact pop_scc_actions cfg st4 i a st' h

theorem run_exMutual : Recursive_Scope.analyze cfg0 exMutual 30 =
    .ok ⟨⟩
      { units := [{ defn := ⟨"f", .func, ["g"]⟩, slot := 0,
                    state := .analyzed, sccOrd := 0, sccLowlink := 0,
                    resolved := [.symbolicRef "g"],
                    nonlocals := [("g", .letRef "g" 1)] },
                  { defn := ⟨"g", .func, ["f"]⟩, slot := 1,
                    state := .analyzed, sccOrd := 1, sccLowlink := 0,
                    resolved := [.symbolicRef "f"],
                    nonlocals := [("f", .letRef "f" 0)] }],
        dictionary := [("f", ⟨0, 0⟩), ("g", ⟨1, 1⟩)],
        actions := [.functionSetter none [("f", 0), ("g", 1)]
                      [.lambdaConst "f" [.symbolicRef "g"],
                       .lambdaConst "g" [.symbolicRef "f"]]
                      [(0, [.symbolicRef "g"]), (1, [.symbolicRef "f"])]],
        sccCount := 2, slotCount := 2 } := by
  simp [Recursive_Scope.analyze, Recursive_Scope.add_to_scope,
    Recursive_Scope.add_definition, Recursive_Scope.add_binding,
    analyze_actions, force_units, analyze_unit, enter_unit, finish_unit,
    analyze_body, Recursive_Scope.lookup, Recursive_Scope.single_lookup,
    Function_Environ.single_lookup, propagate_lowlink, pop_scc, pop_mark,
    mark_analyzed, scc_members, getUnits, getUnit, setUnit,
    make_function_setter, mfs_funs, mfs_all_captures, mfs_captures, mk_ref,
    lookupA, updateA, exMutual, cfg0, Config.targetIsModule,
    Data_Definition.make_setter, isConstant]

theorem run_exADF : Recursive_Scope.analyze cfg0 exADF 30 =
    .err (.recursiveDataDefinition "d")
      { units := [{ defn := ⟨"a", .func, ["d"]⟩, slot := 0,
                    state := .inProgress, sccOrd := 0, sccLowlink := 0,
                    resolved := [.symbolicRef "d"],
                    nonlocals := [("d", .letRef "d" 1)] },
                  { defn := ⟨"d", .data, ["f"]⟩, slot := 1,
                    state := .inProgress, sccOrd := 1, sccLowlink := 0,
                    resolved := [.letRef "f" 2] },
                  { defn := ⟨"f", .func, ["a"]⟩, slot := 2,
                    state := .inProgress, sccOrd := 2, sccLowlink := 0,
                    resolved := [.symbolicRef "a"],
                    nonlocals := [("a", .letRef "a" 0)] }],
        dictionary := [("a", ⟨0, 0⟩), ("d", ⟨1, 1⟩), ("f", ⟨2, 2⟩)],
        sccStack := [2, 1, 0], sccCount := 3, slotCount := 3 } := by
  simp [Recursive_Scope.analyze, Recursive_Scope.add_to_scope,
    Recursive_Scope.add_definition, Recursive_Scope.add_binding,
    analyze_actions, force_units, analyze_unit, enter_unit, finish_unit, analyze_body,
    Recursive_Scope.lookup, Recursive_Scope.single_lookup,
    Function_Environ.single_lookup, propagate_lowlink, pop_scc, pop_mark,
    mark_analyzed, scc_members, getUnits, getUnit, setUnit,
    make_function_setter, mfs_funs, mfs_all_captures, mfs_captures, mk_ref,
    lookupA, updateA, exADF, cfg0, Config.targetIsModule,
    Data_Definition.make_setter, isConstant]

theorem run_exFX : Recursive_Scope.analyze cfg0 exFX 30 =
    .err (.recursiveDataDefinition "x")
      { units := [{ defn := ⟨"f", .func, ["x"]⟩, slot := 0,
                    state := .inProgress, sccOrd := 0, sccLowlink := 0,
                    resolved := [.symbolicRef "x"],
                    nonlocals := [("x", .letRef "x" 1)] },
                  { defn := ⟨"x", .data, ["f"]⟩, slot := 1,
                    state := .inProgress, sccOrd := 1, sccLowlink := 0,
                    resolved := [.letRef "f" 0] }],
        dictionary := [("f", ⟨0, 0⟩), ("x", ⟨1, 1⟩)],
        sccStack := [1, 0], sccCount := 2, slotCount := 2 } := by
  simp [Recursive_Scope.analyze, Recursive_Scope.add_to_scope,
    Recursive_Scope.add_definition, Recursive_Scope.add_binding,
    analyze_actions, force_units, analyze_unit, enter_unit, finish_unit, analyze_body,
    Recursive_Scope.lookup, Recursive_Scope.single_lookup,
    Function_Environ.single_lookup, propagate_lowlink, pop_scc, pop_mark,
    mark_analyzed, scc_members, getUnits, getUnit, setUnit,
    make_function_setter, mfs_funs, mfs_all_captures, mfs_captures, mk_ref,
    lookupA, updateA, exFX, cfg0, Config.targetIsModule,
    Data_Definition.make_setter, isConstant]

theorem run_exFG : Recursive_Scope.analyze cfg0 exFG 30 =
    .ok ⟨⟩
      { units := [{ defn := ⟨"f", .func, ["g"]⟩, slot := 0,
                    state := .analyzed, sccOrd := 0, sccLowlink := 0,
                    resolved := [.symbolicRef "g"],
                    nonlocals := [("g", .letRef "g" 1)] },
                  { defn := ⟨"g", .func, []⟩, slot := 1,
                    state := .analyzed, sccOrd := 1, sccLowlink := 1 }],
        dictionary := [("f", ⟨0, 0⟩), ("g", ⟨1, 1⟩)],
        actions := [.functionSetter none [("g", 0)] [.lambdaConst "g" []]
                      [(1, [])],
                    .functionSetter none [("f", 0), ("g", 1)]
                      [.lambdaConst "f" [.symbolicRef "g"],
                       .expr (.letRef "g" 1)]
                      [(0, [.symbolicRef "g"])]],
        sccCount := 2, slotCount := 2 } := by
  simp [Recursive_Scope.analyze, Recursive_Scope.add_to_scope,
    Recursive_Scope.add_definition, Recursive_Scope.add_binding,
    analyze_actions, force_units, analyze_unit, enter_unit, finish_unit, analyze_body,
    Recursive_Scope.lookup, Recursive_Scope.single_lookup,
    Function_Environ.single_lookup, propagate_lowlink, pop_scc, pop_mark,
    mark_analyzed, scc_members, getUnits, getUnit, setUnit,
    make_function_setter, mfs_funs, mfs_all_captures, mfs_captures, mk_ref,
    lookupA, updateA, exFG, cfg0, Config.targetIsModule,
    Data_Definition.make_setter, isConstant]

theorem run_exModule : Recursive_Scope.analyze cfgM exModule 30 =
    .ok ⟨⟩
      { units := [{ defn := ⟨"a", .data, []⟩, slot := 0,
                    state := .analyzed, sccOrd := 1, sccLowlink := 1 },
                  { defn := ⟨"b", .data, ["a"]⟩, slot := 1,
                    state := .analyzed, sccOrd := 0, sccLowlink := 0,
                    resolved := [.indirectRef "a" 0 0] },
                  { defn := ⟨"c", .func, ["b"]⟩, slot := 2,
                    state := .analyzed, sccOrd := 2, sccLowlink := 2,
                    resolved := [.symbolicRef "b"],
                    nonlocals := [("b", .indirectRef "b" 0 1)] }],
        dictionary := [("a", ⟨0, 0⟩), ("b", ⟨1, 1⟩), ("c", ⟨2, 2⟩)],
        actionPhrases := [["b"]],
        actions := [.moduleDataSetter 0 0 [],
                    .moduleDataSetter 0 1 [.indirectRef "a" 0 0],
                    .statement [.indirectRef "b" 0 1],
                    .functionSetter (some 0) [("c", 0), ("b", 1)]
                      [.lambdaConst "c" [.symbolicRef "b"],
                       .expr (.indirectRef "b" 0 1)]
                      [(2, [.symbolicRef "b"])]],
        sccCount := 3, slotCount := 0 } := by
  simp [Recursive_Scope.analyze, Recursive_Scope.add_to_scope,
    Recursive_Scope.add_definition, Recursive_Scope.add_binding,
    analyze_actions, force_units, analyze_unit, enter_unit, finish_unit,
    analyze_body, Recursive_Scope.lookup, Recursive_Scope.single_lookup,
    Function_Environ.single_lookup, propagate_lowlink, pop_scc, pop_mark,
    mark_analyzed, scc_members, getUnits, getUnit, setUnit,
    make_function_setter, mfs_funs, mfs_all_captures, mfs_captures, mk_ref,
    lookupA, updateA, exModule, cfgM, Config.targetIsModule,
    Data_Definition.make_setter, isConstant]

/-! ## Claim theorems -/

/-- C8: `Function_Definition::make_setter` never returns a setter - it is a
defensive assertion failure for every module-slot argument; and since
`Sequential_Scope::end_unit` unconditionally emits a standalone setter for
every unit, registering any function definition into a sequential scope
reaches that assertion. -/
theorem C8_function_setter_defensive :
    (∀ ms : Option Nat,
      Function_Definition.make_setter ms = .error .assertionFailure) ∧
    (∀ (cfg : Config) (st : SeqState) (d : UnitDef) (slot : Nat)
        (resolved : List Expr), d.kind = .func →
      Sequential_Scope.end_unit cfg st d slot resolved =
        .err .assertionFailure st) ∧
    Res.errOf (Sequential_Scope.analyze cfg0 {} [.defn ⟨"f", .func, []⟩]) =
      some .assertionFailure := by
  refine ⟨fun _ => rfl, ?_, by decide⟩
  intro cfg st d slot resolved hk
  simp [Sequential_Scope.end_unit, hk, Function_Definition.make_setter]

/-- Witness for C8 at a concrete function definition. -/
theorem C8_function_setter_defensive_witness :
    Sequential_Scope.end_unit cfg0 {} ⟨"f", .func, []⟩ 0 [] =
      .err .assertionFailure {} :=
  C8_function_setter_defensive.2.1 cfg0 {} ⟨"f", .func, []⟩ 0 [] rfl

/-- C9: registering a name already present in a scope's dictionary raises
"multiply defined" in both scope variants, leaving the scope state - in
particular the first definition's dictionary entry - unchanged; on the
concrete program `a = 1; a = 2;` the whole analysis fails with
"multiply defined" and the final dictionary still maps `a` to the first
definition's slot and unit. -/
theorem C9_multiply_defined :
    (∀ (cfg : Config) (st : ScopeState) (name : Atom) (unitno : Nat)
        (b : Binding), lookupA st.dictionary name = some b →
      Recursive_Scope.add_binding cfg st name unitno =
        .err (.multiplyDefined name) st) ∧
    (∀ (cfg : Config) (st : SeqState) (name : Atom) (slot : Nat),
      lookupA st.dictionary name = some slot →
      Sequential_Scope.add_binding cfg st name =
        .err (.multiplyDefined name) st) ∧
    (Res.errOf (Recursive_Scope.analyze cfg0 exDup 100) =
        some (.multiplyDefined "a") ∧
     lookupA (Res.state (Recursive_Scope.analyze cfg0 exDup 100)).dictionary
        "a" = some ⟨0, 0⟩) := by
  refine ⟨?_, ?_, by decide, by decide⟩
  · intro cfg st name unitno b h
    simp [Recursive_Scope.add_binding, h]
  · intro cfg st name slot h
    simp [Sequential_Scope.add_binding, h]

/-- Witness for C9 at concrete dictionaries already binding the name. -/
theorem C9_multiply_defined_witness :
    Recursive_Scope.add_binding cfg0 { dictionary := [("a", ⟨0, 0⟩)] } "a" 1 =
      .err (.multiplyDefined "a") { dictionary := [("a", ⟨0, 0⟩)] } ∧
    Sequential_Scope.add_binding cfg0 { dictionary := [("a", 0)] } "a" =
      .err (.multiplyDefined "a") { dictionary := [("a", 0)] } :=
  ⟨C9_multiply_defined.1 cfg0 { dictionary := [("a", ⟨0, 0⟩)] } "a" 1 ⟨0, 0⟩ rfl,
   C9_multiply_defined.2.1 cfg0 { dictionary := [("a", 0)] } "a" 0 rfl⟩

/-- Counterexample to C3: in the run of `a() = d; d = f(); f() = a();`, when
unit `f` completes its body with the data unit `d` as the parent on the
analysis stack, line 176's propagation lowers `d`'s lowlink to `f`'s lowlink
0 - not to `f`'s discovery number 2 - and raises no error at all even though
the ancestor `d` is a data unit (the code tests the completed unit, which is
a function); the whole analysis instead fails later, with
"recursive data definition", when the grouped setter is constructed. -/
theorem C3_counterexample :
    Res.valOf (propagate_lowlink stADF_mid 2 (some "f")) = some ⟨⟩ ∧
    Res.errOf (propagate_lowlink stADF_mid 2 (some "f")) = none ∧
    ((getUnit stADF_mid 1).map fun u => u.defn.kind) = some .data ∧
    ((getUnit (Res.state (propagate_lowlink stADF_mid 2 (some "f"))) 1).map
        fun u => u.sccLowlink) = some 0 ∧
    ((getUnit stADF_mid 2).map fun u => u.sccOrd) = some 2 ∧
    Res.errOf (Recursive_Scope.analyze cfg0 exADF 30) =
      some (.recursiveDataDefinition "d") := by
  refine ⟨by decide, by decide, by decide, by decide, by decide, ?_⟩
  rw [run_exADF]
  rfl

/-- C3 (amended): when a unit completes its body while an ancestor is still
on the current path and the completed unit's lowlink is lower than the
parent's, the parent's lowlink is lowered to the completed unit's lowlink
(not its discovery number), and analysis fails immediately with
"illegal recursive reference" exactly when the completed unit (not the
ancestor) is a data unit. -/
theorem C3_propagation_amended :
    ∀ (st : ScopeState) (i p : Nat) (rest : List Nat) (id : Option Atom)
      (ui pu : Unit),
      st.analysisStack = p :: rest →
      getUnit st i = some ui → getUnit st p = some pu →
      ui.sccLowlink < pu.sccLowlink →
      propagate_lowlink st i id =
        (if ui.defn.kind = .data then
          Res.err (.illegalRecursiveReference id)
            (setUnit st p { pu with sccLowlink := ui.sccLowlink })
        else Res.ok ⟨⟩ (setUnit st p { pu with sccLowlink := ui.sccLowlink })) := by
  intro st i p rest id ui pu hstack hui hpu hlt
  simp only [propagate_lowlink, hstack, hui, hpu, if_pos hlt]

/-- Witness for the amended C3 at the concrete mid-analysis state of
`a() = d; d = f(); f() = a();`. -/
theorem C3_propagation_amended_witness :
    propagate_lowlink stADF_mid 2 (some "f") =
      Res.ok ⟨⟩ (setUnit stADF_mid 1
        { defn := ⟨"d", .data, ["f"]⟩, slot := 1, state := .inProgress,
          sccOrd := 1, sccLowlink := 0 }) := by
  have h := C3_propagation_amended stADF_mid 2 1 [0] (some "f")
    { defn := ⟨"f", .func, ["a"]⟩, slot := 2, state := .inProgress,
      sccOrd := 2, sccLowlink := 0, resolved := [.symbolicRef "a"],
      nonlocals := [("a", .letRef "a" 0)] }
    { defn := ⟨"d", .data, ["f"]⟩, slot := 1, state := .inProgress,
      sccOrd := 1, sccLowlink := 1 }
    rfl rfl rfl (by decide)
  rw [h]
  decide

/-- C4: when a data unit roots its SCC (lowlink equals discovery number, the
unit on top of the SCC stack), it is accepted: it is popped, marked analyzed
and its own setter is emitted; a component containing a data unit that is
handed to the grouped-setter construction is rejected with
"recursive data definition" raised inside `make_function_setter`; on
`f() = x; x = f();` the whole analysis fails exactly that way, with no action
emitted. -/
theorem C4_scc_components :
    (∀ (cfg : Config) (st : ScopeState) (i : Nat) (ui : Unit)
        (rest : List Nat),
      getUnit st i = some ui → ui.defn.kind = .data →
      ui.sccLowlink = ui.sccOrd → st.sccStack = i :: rest →
      pop_scc cfg st i = .ok ⟨⟩
        { mark_analyzed st i with
          sccStack := rest,
          actions := st.actions ++
            [Data_Definition.make_setter cfg.moduleSlot ui.slot ui.resolved] } ∧
      getUnit (mark_analyzed st i) i = some { ui with state := .analyzed }) ∧
    (∀ (cfg : Config) (members : List Unit) (u : Unit),
      u ∈ members → u.defn.kind = .data →
      isRecDataErr (make_function_setter cfg members) = true) ∧
    (Res.errOf (Recursive_Scope.analyze cfg0 exFX 30) =
        some (.recursiveDataDefinition "x") ∧
      (Res.state (Recursive_Scope.analyze cfg0 exFX 30)).actions = []) := by
  refine ⟨?_, ?_, ?_, ?_⟩
  · intro cfg st i ui rest hui hkind hlow hstack
    refine ⟨?_, getUnit_mark_analyzed_self st i ui hui⟩
    simp [pop_scc, hui, hkind, hlow, hstack, mark_analyzed_actions]
  · intro cfg members u hu hk
    obtain ⟨n, hn⟩ := mfs_funs_data members [] [] 0 u hu hk
    simp [make_function_setter, isRecDataErr, hn]
  · rw [run_exFX]; rfl
  · rw [run_exFX]; rfl

/-- Witness for C4: a concrete singleton in-progress data unit rooting its
SCC is popped with its own setter; handing a data unit to the grouped-setter
construction is rejected. -/
theorem C4_scc_components_witness :
    (pop_scc cfg0 stD 0 = .ok ⟨⟩
        { mark_analyzed stD 0 with
          sccStack := [],
          actions := stD.actions ++
            [Data_Definition.make_setter cfg0.moduleSlot uD.slot uD.resolved] } ∧
      getUnit (mark_analyzed stD 0) 0 = some { uD with state := .analyzed }) ∧
    isRecDataErr (make_function_setter cfg0 [uD]) = true :=
  ⟨C4_scc_components.1 cfg0 stD 0 uD [] rfl rfl rfl rfl,
   C4_scc_components.2.1 cfg0 [uD] uD (List.mem_singleton.mpr rfl) rfl⟩

/-- Counterexample to C5: the example `f() = g() + 1; g() = 2;` is not one
two-member component - `g` does not reference `f`, so Tarjan's algorithm
discovers two singleton components, and the successful analysis emits two
grouped initializer actions, not the claimed single one for a joint
component. -/
theorem C5_counterexample :
    (Res.state (Recursive_Scope.analyze cfg0 exFG 30)).actions.length = 2 ∧
    Res.errOf (Recursive_Scope.analyze cfg0 exFG 30) = none := by
  refine ⟨?_, ?_⟩ <;> rw [run_exFG] <;> rfl

/-- C5 (amended): for every SCC consisting only of function units, the
grouped setter construction succeeds and produces a single initializer whose
shared nonlocals enumeration first assigns slots 0..n-1 to the members'
lambda templates (as constant entries, in component order), followed by every
captured free variable of any member that is not already enumerated - in
particular not a group member - each added exactly once (the enumeration's
names are distinct and aligned with its expressions); the setter installs
each member's slot/lambda pair in component order.  The concrete example
`f() = g() + 1; g() = 2;` resolves as two singleton function components, each
emitting one grouped initializer; `f`'s initializer enumerates `f`'s own
lambda template at slot 0 followed by the single captured reference to `g`. -/
theorem C5_function_component_amended :
    (∀ (cfg : Config) (ms : List Unit),
      (∀ u ∈ ms, u.defn.kind = .func) →
      (ms.map fun u => u.defn.name).Nodup →
      ∃ dict exprs,
        make_function_setter cfg ms = .ok (.functionSetter cfg.moduleSlot dict
          exprs (ms.map fun u => (u.slot, u.resolved))) ∧
        exprs.take ms.length =
          ms.map (fun u => NExpr.lambdaConst u.defn.name u.resolved) ∧
        (∀ j (hj : j < ms.length),
          lookupA dict ((ms.get ⟨j, hj⟩).defn.name) = some j) ∧
        (dict.map Prod.fst).Nodup ∧
        (∀ u ∈ ms, ∀ a e, (a, e) ∈ u.nonlocals →
          (lookupA dict a).isSome = true) ∧
        dict.length = exprs.length) ∧
    Recursive_Scope.analyze cfg0 exFG 30 =
      .ok ⟨⟩
        { units := [{ defn := ⟨"f", .func, ["g"]⟩, slot := 0,
                      state := .analyzed, sccOrd := 0, sccLowlink := 0,
                      resolved := [.symbolicRef "g"],
                      nonlocals := [("g", .letRef "g" 1)] },
                    { defn := ⟨"g", .func, []⟩, slot := 1,
                      state := .analyzed, sccOrd := 1, sccLowlink := 1 }],
          dictionary := [("f", ⟨0, 0⟩), ("g", ⟨1, 1⟩)],
          actions := [.functionSetter none [("g", 0)] [.lambdaConst "g" []]
                        [(1, [])],
                      .functionSetter none [("f", 0), ("g", 1)]
                        [.lambdaConst "f" [.symbolicRef "g"],
                         .expr (.letRef "g" 1)]
                        [(0, [.symbolicRef "g"])]],
          sccCount := 2, slotCount := 2 } := by
  refine ⟨?_, run_exFG⟩
  intro cfg ms hfunc hnodup
  obtain ⟨d0, hEq0, hpres0, hiff0, hnd0, hmem0, hlen0⟩ :=
    mfs_funs_spec ms [] [] 0 hfunc
  simp only [List.nil_append, Nat.zero_add, List.length_nil]
    at hEq0 hmem0 hlen0
  obtain ⟨d1, es1, s1, hEq1, hpres1, hnd1, hiff1, hpre1, hlen1⟩ :=
    mfs_all_captures_spec ms d0
      (ms.map (fun u => NExpr.lambdaConst u.defn.name u.resolved)) ms.length
  refine ⟨d1, es1, ?_, ?_, ?_, ?_, ?_, ?_⟩
  · simp [make_function_setter, hEq0, hEq1]
  · obtain ⟨Δ, hΔ⟩ := hpre1
    rw [hΔ]
    have hl : (ms.map fun u =>
        NExpr.lambdaConst u.defn.name u.resolved).length = ms.length := by
      simp
    rw [← hl, List.take_left]
  · intro j hj
    exact hpres1 _ j (hmem0 hnodup j hj)
  · exact hnd1 (hnd0 (by simp))
  · intro u hu a e hae
    rw [hiff1 a]
    exact Or.inr ⟨u, hu, List.mem_map_of_mem Prod.fst hae⟩
  · have h0 : d0.length = ms.length := hlen0 hnodup (by simp [lookupA])
    have he : (ms.map fun u =>
        NExpr.lambdaConst u.defn.name u.resolved).length = ms.length := by simp
    omega

/-- Witness for the amended C5: the grouped setter construction succeeds on a
concrete one-member function component with a captured free variable. -/
theorem C5_function_component_amended_witness :
    exceptIsOk (make_function_setter cfg0 msW) = true := by
  obtain ⟨dict, exprs, h1, _⟩ :=
    C5_function_component_amended.1 cfg0 msW (by decide) (by decide)
  rw [h1]
  rfl

/-- C10: in a module-target scope - sequential or recursive - the slot
assigned by a successful registration equals the dictionary's size at that
moment; consequently, after every successful analysis, the dictionary's
bindings hold exactly the consecutive slots 0..n-1 in registration order, and
the module dictionary published at the end of analysis (the dictionary itself
for a sequential scope, its name-to-slot projection for a recursive scope)
maps the n names bijectively onto those indices (the slots are exactly 0..n-1
and the names are pairwise distinct). -/
theorem C10_module_slots :
    (∀ (cfg : Config) (st : ScopeState) (name : Atom) (unitno : Nat),
      cfg.targetIsModule = true → lookupA st.dictionary name = none →
      Recursive_Scope.add_binding cfg st name unitno =
        .ok st.dictionary.length { st with dictionary := st.dictionary ++
          [(name, ⟨st.dictionary.length, unitno⟩)] }) ∧
    (∀ (cfg : Config) (st : SeqState) (name : Atom),
      cfg.targetIsModule = true → lookupA st.dictionary name = none →
      Sequential_Scope.add_binding cfg st name =
        .ok st.dictionary.length { st with dictionary := st.dictionary ++
          [(name, st.dictionary.length)] }) ∧
    (∀ (cfg : Config) (entries : List Entry) (fuel : Nat) (a : PUnit)
        (st2 : ScopeState),
      cfg.targetIsModule = true →
      Recursive_Scope.analyze cfg entries fuel = .ok a st2 →
      (st2.dictionary.map fun p => p.2.slot_index) =
        List.range st2.dictionary.length ∧
      (module_dictionary st2).map Prod.snd =
        List.range (module_dictionary st2).length ∧
      ((module_dictionary st2).map Prod.fst).Nodup) ∧
    (∀ (cfg : Config) (entries : List Entry) (a : PUnit) (st2 : SeqState),
      cfg.targetIsModule = true →
      Sequential_Scope.analyze cfg {} entries = .ok a st2 →
      st2.dictionary.map Prod.snd = List.range st2.dictionary.length ∧
      (st2.dictionary.map Prod.fst).Nodup) := by
  refine ⟨?_, ?_, ?_, ?_⟩
  · intro cfg st name unitno hm hfind
    simp [Recursive_Scope.add_binding, hfind, hm]
  · intro cfg st name hm hfind
    simp [Sequential_Scope.add_binding, hfind, hm]
  · intro cfg entries fuel a st2 hm hEq
    unfold Recursive_Scope.analyze at hEq
    cases hreg : Recursive_Scope.add_to_scope cfg {} entries with
    | err e stR =>
      rw [hreg] at hEq
      exact absurd hEq (by simp)
    | ok aR stR =>
      rw [hreg] at hEq
      dsimp only at hEq
      cases hacts : analyze_actions cfg fuel stR stR.actionPhrases with
      | err e stA =>
        rw [hacts] at hEq
        exact absurd hEq (by simp)
      | ok aA stA =>
        rw [hacts] at hEq
        dsimp only at hEq
        obtain ⟨hc, hn⟩ := add_to_scope_module cfg entries {} aR stR hm hreg
        have hcR := hc (by simp)
        have hnR := hn (by simp)
        have hdA : stA.dictionary = stR.dictionary := by
          have := (analyze_actions_Pres cfg fuel stR.actionPhrases stR).1
          rw [hacts] at this
          exact this
        have hd2 : st2.dictionary = stA.dictionary := by
          have := (force_units_Pres cfg fuel stA.units.length stA 0).1
          rw [hEq] at this
          exact this
        have hdict : st2.dictionary = stR.dictionary := hd2.trans hdA
        rw [hdict]
        refine ⟨hcR, ?_, ?_⟩
        · unfold module_dictionary
          rw [hdict]
          simp only [List.map_map, List.length_map]
          exact hcR
        · unfold module_dictionary
          rw [hdict]
          simp only [List.map_map]
          exact hnR
  · intro cfg entries a st2 hm hEq
    exact seq_analyze_module cfg entries {} a st2 hm hEq (by simp) (by simp)

/-- Witness for C10 at concrete module scopes: the recursive scope
`a = 1; b = a; <stmt b>; c() = b;` and the sequential scope
`a = 1; b = a; <stmt b>;`. -/
theorem C10_module_slots_witness :
    Recursive_Scope.add_binding cfgM
      { dictionary := [("a", ⟨0, 0⟩)] } "b" 1 =
      .ok 1 { dictionary := [("a", ⟨0, 0⟩), ("b", ⟨1, 1⟩)] } ∧
    Sequential_Scope.add_binding cfgM
      { dictionary := [("a", 0)] } "b" =
      .ok 1 { dictionary := [("a", 0), ("b", 1)] } ∧
    (([("a", (⟨0, 0⟩ : Binding)), ("b", ⟨1, 1⟩), ("c", ⟨2, 2⟩)].map
        fun p => p.2.slot_index) = List.range 3) ∧
    ([("a", 0), ("b", 1)] : List (Atom × Nat)).map Prod.snd =
      List.range 2 ∧
    (([("a", 0), ("b", 1)] : List (Atom × Nat)).map Prod.fst).Nodup := by
  have hseqrun : Sequential_Scope.analyze cfgM {} exSeq = .ok ⟨⟩
      { dictionary := [("a", 0), ("b", 1)],
        actions := [.moduleDataSetter 0 0 [],
          .moduleDataSetter 0 1 [.indirectRef "a" 0 0],
          .statement [.indirectRef "b" 0 1]] } := by
    simp [Sequential_Scope.analyze, Sequential_Scope.resolve,
      Sequential_Scope.lookup, Sequential_Scope.single_lookup,
      Sequential_Scope.add_binding, Sequential_Scope.end_unit,
      Data_Definition.make_setter, mk_ref, lookupA, exSeq, cfgM,
      Config.targetIsModule]
  obtain ⟨hs1, hs2⟩ := C10_module_slots.2.2.2 cfgM exSeq ⟨⟩ _ rfl hseqrun
  refine ⟨C10_module_slots.1 cfgM { dictionary := [("a", ⟨0, 0⟩)] } "b" 1
      rfl rfl,
    C10_module_slots.2.1 cfgM { dictionary := [("a", 0)] } "b" rfl rfl,
    (C10_module_slots.2.2.1 cfgM exModule 30 ⟨⟩ _ rfl run_exModule).1,
    hs1, hs2⟩

/-- C7 counterexample: in `y() = x + x; x = y();`, the first free-variable
lookup of `x` from `y`'s body stores the capture `("x", Let_Ref 1)` in `y`'s
capture mapping and returns the placeholder - yet the second reference to the
already-captured `x` is re-resolved through the enclosing scope (the code
calls `scope_.lookup(id)` unconditionally at line 302) and this re-resolution
fails with "illegal recursive reference", so the whole analysis of the
program fails.  Had the capture not been re-resolved, the second reference
would have returned the recorded placeholder.  This refutes the claim's
sentence that a captured name "is not re-resolved on each reference". -/
theorem C7_counterexample :
    Function_Environ.single_lookup cfg0 20 stYX1 0 "x" =
      .ok (some (.symbolicRef "x")) stYX2 ∧
    (getUnit stYX2 0).map Unit.nonlocals = some [("x", .letRef "x" 1)] ∧
    Function_Environ.single_lookup cfg0 20 stYX2 0 "x" =
      .err (.illegalRecursiveReference (some "x")) stYX2 ∧
    (Recursive_Scope.analyze cfg0 exYX 30).errOf =
      some (.illegalRecursiveReference (some "x")) := by
  refine ⟨?_, by rfl, ?_, ?_⟩
  · simp [Function_Environ.single_lookup, Recursive_Scope.lookup,
      Recursive_Scope.single_lookup, analyze_unit, enter_unit, finish_unit,
      analyze_body, propagate_lowlink, pop_scc, pop_mark, mark_analyzed,
      scc_members, getUnits, getUnit, setUnit, mk_ref, lookupA, updateA,
      stYX1, stYX2, cfg0, Config.targetIsModule, isConstant]
  · simp [Function_Environ.single_lookup, Recursive_Scope.lookup,
      Recursive_Scope.single_lookup, analyze_unit, enter_unit, finish_unit,
      analyze_body, propagate_lowlink, pop_scc, pop_mark, mark_analyzed,
      scc_members, getUnits, getUnit, setUnit, mk_ref, lookupA, updateA,
      stYX2, cfg0, Config.targetIsModule, isConstant]
  · simp [Recursive_Scope.analyze, Recursive_Scope.add_to_scope,
      Recursive_Scope.add_definition, Recursive_Scope.add_binding,
      analyze_actions, force_units, analyze_unit, enter_unit, finish_unit,
      analyze_body, Recursive_Scope.lookup, Recursive_Scope.single_lookup,
      Function_Environ.single_lookup, propagate_lowlink, pop_scc, pop_mark,
      mark_analyzed, scc_members, getUnits, getUnit, setUnit,
      make_function_setter, mfs_funs, mfs_all_captures, mfs_captures, mk_ref,
      lookupA, updateA, exYX, cfg0, Config.targetIsModule,
      Data_Definition.make_setter, isConstant, Res.errOf]

/-- C7 (amended): a free-variable lookup of a function body forwards the name
to the enclosing scope on EVERY reference (nothing is cached); if the result
is a compile-time constant it is returned unchanged with no capture recorded;
otherwise the resolved expression is stored in the owning unit's capture
mapping under the name - overwriting, so the mapping holds at most one entry
per name - and a placeholder symbolic reference is returned.  A later
re-resolution of the same name can fail (see the counterexample), but
whenever it succeeds it returns the same result as the first and leaves the
analysis state - in particular the capture mapping - exactly unchanged. -/
theorem C7_capture_amended :
    (∀ (cfg : Config) (fuel : Nat) (st : ScopeState) (owner : Nat)
        (name : Atom) (m : Expr) (st1 : ScopeState),
      Recursive_Scope.lookup cfg fuel st name = .ok (some m) st1 →
      isConstant m = true →
      Function_Environ.single_lookup cfg (fuel + 1) st owner name =
        .ok (some m) st1) ∧
    (∀ (cfg : Config) (fuel : Nat) (st : ScopeState) (owner : Nat)
        (name : Atom) (m : Expr) (st1 : ScopeState) (ou : Unit),
      Recursive_Scope.lookup cfg fuel st name = .ok (some m) st1 →
      isConstant m = false →
      getUnit st1 owner = some ou →
      Function_Environ.single_lookup cfg (fuel + 1) st owner name =
        .ok (some (.symbolicRef name))
          (setUnit st1 owner
            { ou with nonlocals := updateA ou.nonlocals name m })) ∧
    (∀ (nl : List (Atom × Expr)) (name : Atom) (m : Expr),
      (nl.map Prod.fst).Nodup →
      ((updateA nl name m).map Prod.fst).Nodup) ∧
    (∀ (cfg : Config) (fuel : Nat) (st : ScopeState) (owner : Nat)
        (name : Atom) (r : Expr) (r2 : Option Expr) (st1 st2 : ScopeState),
      Function_Environ.single_lookup cfg (fuel + 4) st owner name =
        .ok (some r) st1 →
      Function_Environ.single_lookup cfg (fuel + 4) st1 owner name =
        .ok r2 st2 →
      r2 = some r ∧ st2 = st1) := by
  refine ⟨?_, ?_, ?_, ?_⟩
  · intro cfg fuel st owner name m st1 hL hc
    cases fuel with
    | zero => simp [Recursive_Scope.lookup] at hL
    | succ f =>
      simp only [Function_Environ.single_lookup]
      rw [hL]
      dsimp only
      rw [if_pos hc]
  · intro cfg fuel st owner name m st1 ou hL hc hou
    cases fuel with
    | zero => simp [Recursive_Scope.lookup] at hL
    | succ f =>
      simp only [Function_Environ.single_lookup]
      rw [hL]
      dsimp only
      rw [if_neg (by rw [hc]; exact Bool.false_ne_true), hou]
  · intro nl name m h
    exact updateA_keys_nodup nl name m h
  · intro cfg fuel st owner name r r2 st1 st2 h1 h2
    have hd1 : st1.dictionary = st.dictionary := by
      have hp := ((analysis_pres (fuel + 4) cfg).2.2.2.1 st owner name).1
      rw [h1] at hp
      exact hp.1
    rw [show fuel + 4 = fuel + 3 + 1 from rfl] at h1 h2
    simp only [Function_Environ.single_lookup] at h1 h2
    cases hL : Recursive_Scope.lookup cfg (fuel + 3) st name with
    | err e stE => rw [hL] at h1; exact absurd h1 (by simp)
    | ok mo stL =>
      cases mo with
      | none =>
        rw [hL] at h1
        dsimp only at h1
        exact absurd h1 (by simp)
      | some m =>
        rw [hL] at h1
        dsimp only at h1
        rcases lookup_ok_shape cfg fuel st name (some m) stL hL with
          ⟨hdict, hstL, hmout⟩ | ⟨b, a, hdict, hA, hmref⟩
        · -- the name resolves in the chain of parent environments
          subst hstL
          by_cases hc : isConstant m = true
          · rw [if_pos hc, Res.ok.injEq] at h1
            obtain ⟨hmr, hst1⟩ := h1
            subst hst1
            rw [hL] at h2
            dsimp only at h2
            rw [if_pos hc, Res.ok.injEq] at h2
            exact ⟨h2.1.symm.trans hmr, h2.2.symm⟩
          · rw [if_neg hc] at h1
            cases hou : getUnit stL owner with
            | none =>
              rw [hou] at h1
              exact absurd h1 (by simp)
            | some ou =>
              rw [hou] at h1
              dsimp only at h1
              rw [Res.ok.injEq] at h1
              obtain ⟨hmr, hst1⟩ := h1
              have hL2 : Recursive_Scope.lookup cfg (fuel + 3) st1 name =
                  .ok (some m) st1 := by
                rw [show fuel + 3 = fuel + 2 + 1 from rfl]
                simp only [Recursive_Scope.lookup]
                have hS2 : Recursive_Scope.single_lookup cfg (fuel + 2)
                    st1 name = .ok none st1 := by
                  rw [show fuel + 2 = fuel + 1 + 1 from rfl]
                  simp only [Recursive_Scope.single_lookup]
                  rw [hd1, hdict]
                rw [hS2]
                dsimp only
                rw [← hmout]
              rw [hL2] at h2
              dsimp only at h2
              rw [if_neg hc] at h2
              have hou1 : getUnit st1 owner =
                  some { ou with nonlocals := updateA ou.nonlocals name m } :=
                by
                rw [← hst1]
                exact getUnit_setUnit_self stL owner _ ou hou
              rw [hou1] at h2
              dsimp only at h2
              rw [Res.ok.injEq] at h2
              obtain ⟨hr2, hst2⟩ := h2
              refine ⟨hr2.symm.trans hmr, ?_⟩
              rw [← hst2, updateA_idem]
              exact setUnit_getUnit_self st1 owner _ hou1
        · -- the name resolves in this scope's dictionary
          have hm := Option.some.inj hmref
          have hready := analyze_unit_ready cfg fuel st b.unit_index
            (some name) a stL hA
          by_cases hc : isConstant m = true
          · rw [if_pos hc, Res.ok.injEq] at h1
            obtain ⟨hmr, hst1⟩ := h1
            subst hst1
            cases hA2 : analyze_unit cfg (fuel + 1) stL b.unit_index
                (some name) with
            | err e2 stE2 =>
              have hL2 : Recursive_Scope.lookup cfg (fuel + 3) stL name =
                  .err e2 stE2 := by
                rw [show fuel + 3 = fuel + 2 + 1 from rfl]
                simp only [Recursive_Scope.lookup]
                have hS2 : Recursive_Scope.single_lookup cfg (fuel + 2)
                    stL name = .err e2 stE2 := by
                  rw [show fuel + 2 = fuel + 1 + 1 from rfl]
                  simp only [Recursive_Scope.single_lookup]
                  rw [hd1, hdict]
                  dsimp only
                  rw [hA2]
                rw [hS2]
              rw [hL2] at h2
              exact absurd h2 (by simp)
            | ok a2 stM =>
              have hstM : stM = stL := analyze_unit_of_ready cfg fuel stL
                b.unit_index (some name) a2 stM hready hA2
              rw [hstM] at hA2
              have hL2 : Recursive_Scope.lookup cfg (fuel + 3) stL name =
                  .ok (some (mk_ref cfg name b.slot_index)) stL := by
                rw [show fuel + 3 = fuel + 2 + 1 from rfl]
                simp only [Recursive_Scope.lookup]
                have hS2 : Recursive_Scope.single_lookup cfg (fuel + 2)
                    stL name = .ok (some (mk_ref cfg name b.slot_index))
                      stL := by
                  rw [show fuel + 2 = fuel + 1 + 1 from rfl]
                  simp only [Recursive_Scope.single_lookup]
                  rw [hd1, hdict]
                  dsimp only
                  rw [hA2]
                rw [hS2]
              rw [hL2] at h2
              dsimp only at h2
              rw [← hm, if_pos hc, Res.ok.injEq] at h2
              exact ⟨h2.1.symm.trans hmr, h2.2.symm⟩
          · rw [if_neg hc] at h1
            cases hou : getUnit stL owner with
            | none =>
              rw [hou] at h1
              exact absurd h1 (by simp)
            | some ou =>
              rw [hou] at h1
              dsimp only at h1
              rw [Res.ok.injEq] at h1
              obtain ⟨hmr, hst1⟩ := h1
              have hready1 : ReadyRow st1 b.unit_index := by
                rw [← hst1]
                exact ReadyRow_setUnit stL b.unit_index owner ou _ hou
                  rfl rfl rfl hready
              have hou1 : getUnit st1 owner =
                  some { ou with nonlocals := updateA ou.nonlocals name m } :=
                by
                rw [← hst1]
                exact getUnit_setUnit_self stL owner _ ou hou
              have hdd1 : st1.dictionary = st.dictionary := hd1
              cases hA2 : analyze_unit cfg (fuel + 1) st1 b.unit_index
                  (some name) with
              | err e2 stE2 =>
                have hL2 : Recursive_Scope.lookup cfg (fuel + 3) st1 name =
                    .err e2 stE2 := by
                  rw [show fuel + 3 = fuel + 2 + 1 from rfl]
                  simp only [Recursive_Scope.lookup]
                  have hS2 : Recursive_Scope.single_lookup cfg (fuel + 2)
                      st1 name = .err e2 stE2 := by
                    rw [show fuel + 2 = fuel + 1 + 1 from rfl]
                    simp only [Recursive_Scope.single_lookup]
                    rw [hdd1, hdict]
                    dsimp only
                    rw [hA2]
                  rw [hS2]
                rw [hL2] at h2
                exact absurd h2 (by simp)
              | ok a2 stM =>
                have hstM : stM = st1 := analyze_unit_of_ready cfg fuel st1
                  b.unit_index (some name) a2 stM hready1 hA2
                rw [hstM] at hA2
                have hL2 : Recursive_Scope.lookup cfg (fuel + 3) st1 name =
                    .ok (some (mk_ref cfg name b.slot_index)) st1 := by
                  rw [show fuel + 3 = fuel + 2 + 1 from rfl]
                  simp only [Recursive_Scope.lookup]
                  have hS2 : Recursive_Scope.single_lookup cfg (fuel + 2)
                      st1 name = .ok (some (mk_ref cfg name b.slot_index))
                        st1 := by
                    rw [show fuel + 2 = fuel + 1 + 1 from rfl]
                    simp only [Recursive_Scope.single_lookup]
                    rw [hdd1, hdict]
                    dsimp only
                    rw [hA2]
                  rw [hS2]
                rw [hL2] at h2
                dsimp only at h2
                rw [← hm, if_neg hc, hou1] at h2
                dsimp only at h2
                rw [Res.ok.injEq] at h2
                obtain ⟨hr2, hst2⟩ := h2
                refine ⟨hr2.symm.trans hmr, ?_⟩
                rw [← hst2, updateA_idem]
                exact setUnit_getUnit_self st1 owner _ hou1

/-- Witness for C7 at the concrete scope state `stW` (function `f` in
progress, outer scope binding the constant `k` and the operation `v`):
constants are forwarded without capture, the operation `v` is captured and
replaced by a placeholder, the capture keys stay duplicate-free, and a
repeated successful lookup of `v` is idempotent. -/
theorem C7_capture_amended_witness :
    Function_Environ.single_lookup cfgK 10 stW 0 "k" =
      .ok (some (.constant 7)) stW ∧
    Function_Environ.single_lookup cfgK 10 stW 0 "v" =
      .ok (some (.symbolicRef "v")) stW2 ∧
    ((updateA ([] : List (Atom × Expr)) "v" (.letRef "v" 40)).map
      Prod.fst).Nodup ∧
    (some (Expr.symbolicRef "v") = some (Expr.symbolicRef "v") ∧
      stW2 = stW2) := by
  have hlookk : Recursive_Scope.lookup cfgK 9 stW "k" =
      .ok (some (.constant 7)) stW := by
    simp [Recursive_Scope.lookup, Recursive_Scope.single_lookup,
      analyze_unit, getUnit, lookupA, stW, cfgK]
  have hlookv : Recursive_Scope.lookup cfgK 9 stW "v" =
      .ok (some (.letRef "v" 40)) stW := by
    simp [Recursive_Scope.lookup, Recursive_Scope.single_lookup,
      analyze_unit, getUnit, lookupA, stW, cfgK]
  have ha := C7_capture_amended.1 cfgK 9 stW 0 "k" (.constant 7) stW
    hlookk rfl
  have hb := C7_capture_amended.2.1 cfgK 9 stW 0 "v" (.letRef "v" 40) stW
    ⟨⟨"f", .func, ["v", "v"]⟩, 0, .inProgress, 0, 0, [], []⟩
    hlookv rfl rfl
  have hb2 : Function_Environ.single_lookup cfgK 10 stW 0 "v" =
      .ok (some (.symbolicRef "v")) stW2 := by
    rw [hb]
    rfl
  have hc := C7_capture_amended.2.2.1 ([] : List (Atom × Expr)) "v"
    (.letRef "v" 40) (by simp)
  have hd := C7_capture_amended.2.2.2 cfgK 6 stW 0 "v" (.symbolicRef "v")
    (some (.symbolicRef "v")) stW2 stW2 hb2 (by
      simp [Function_Environ.single_lookup, Recursive_Scope.lookup,
        Recursive_Scope.single_lookup, analyze_unit, getUnit, setUnit,
        lookupA, updateA, stW2, cfgK, isConstant])
  exact ⟨ha, hb2, hc, hd⟩

/-- C6: each slot is written exactly once, by the action emitted at the
moment its owning unit (or its SCC) finishes analysis: (i) a lookup of a name
whose unit is already analyzed returns the slot reference and leaves the
whole state - in particular the action list - unchanged, so no duplicate
initializer is ever emitted; (ii) when a data unit roots its SCC, exactly one
setter action writing exactly its slot is appended and the unit becomes
analyzed; (iii) when a function unit roots its SCC, exactly one grouped
setter writing exactly the member units' slots is appended and the root is
marked analyzed; (iv) a unit that does not root its SCC emits nothing;
(v) the final force-analysis pass skips an already-analyzed unit; (vi) the
analyzed state is absorbing under any further unit analysis, with the slot
unchanged. -/
theorem C6_exactly_once :
    (∀ (cfg : Config) (fuel : Nat) (st : ScopeState) (name : Atom)
        (b : Binding) (u : Unit),
      lookupA st.dictionary name = some b →
      getUnit st b.unit_index = some u → u.state = .analyzed →
      Recursive_Scope.single_lookup cfg (fuel + 2) st name =
        .ok (some (mk_ref cfg name b.slot_index)) st) ∧
    (∀ (cfg : Config) (st : ScopeState) (i : Nat) (u : Unit) (top : Nat)
        (rest : List Nat),
      getUnit st i = some u → u.defn.kind = .data →
      u.sccLowlink = u.sccOrd → st.sccStack = top :: rest →
      ∃ st', pop_scc cfg st i = .ok ⟨⟩ st' ∧
        st'.actions = st.actions ++
          [Data_Definition.make_setter cfg.moduleSlot u.slot u.resolved] ∧
        Action.writes
          (Data_Definition.make_setter cfg.moduleSlot u.slot u.resolved) =
          [u.slot] ∧
        getUnit st' i = some { u with state := .analyzed }) ∧
    (∀ (cfg : Config) (st : ScopeState) (i : Nat) (u : Unit)
        (members : List Unit),
      getUnit st i = some u → u.defn.kind = .func →
      u.sccLowlink = u.sccOrd →
      getUnits st (scc_members st i) = some members →
      (∀ w ∈ members, w.defn.kind = .func) →
      i ∈ st.sccStack →
      ∃ act st', pop_scc cfg st i = .ok ⟨⟩ st' ∧
        st'.actions = st.actions ++ [act] ∧
        Action.writes act = members.map Unit.slot ∧
        getUnit st' i = some { u with state := .analyzed }) ∧
    (∀ (cfg : Config) (st : ScopeState) (i : Nat) (u : Unit),
      getUnit st i = some u → ¬ u.sccLowlink = u.sccOrd →
      pop_scc cfg st i = .ok ⟨⟩ st) ∧
    (∀ (cfg : Config) (fuel count : Nat) (st : ScopeState) (k : Nat)
        (u : Unit),
      getUnit st k = some u → u.state = .analyzed →
      force_units cfg fuel (count + 1) st k =
        force_units cfg fuel count st (k + 1)) ∧
    (∀ (cfg : Config) (fuel : Nat) (st : ScopeState) (i : Nat)
        (id : Option Atom) (j : Nat) (u : Unit),
      getUnit st j = some u → u.state = .analyzed →
      ∃ u2, getUnit ((analyze_unit cfg fuel st i id).state) j = some u2 ∧
        u2.state = .analyzed ∧ u2.slot = u.slot) := by
  refine ⟨?_, ?_, ?_, ?_, ?_, ?_⟩
  · intro cfg fuel st name b u hb hu hstate
    have hA : analyze_unit cfg (fuel + 1) st b.unit_index (some name) =
        .ok ⟨⟩ st := by
      simp only [analyze_unit, hu]
      rw [hstate]
    rw [show fuel + 2 = fuel + 1 + 1 from rfl]
    simp only [Recursive_Scope.single_lookup]
    rw [hb]
    dsimp only
    rw [hA]
  · intro cfg st i u top rest hu hkind hroot hss
    refine ⟨{ { mark_analyzed st i with sccStack := rest } with
        actions := (mark_analyzed st i).actions ++
          [Data_Definition.make_setter cfg.moduleSlot u.slot u.resolved] },
      ?_, ?_, ?_, ?_⟩
    · unfold pop_scc
      rw [hu]
      dsimp only
      rw [if_pos hroot, if_pos hkind, hss]
    · show (mark_analyzed st i).actions ++ _ = _
      rw [mark_analyzed_actions]
    · cases hms : cfg.moduleSlot <;>
        simp [Data_Definition.make_setter, Action.writes, hms]
    · show getUnit (mark_analyzed st i) i = _
      exact getUnit_mark_analyzed_self st i u hu
  · intro cfg st i u members hu hkind hroot hgu hkinds hmem
    obtain ⟨d, hmfs, _⟩ := mfs_funs_spec members [] [] 0 hkinds
    rcases hmac : mfs_all_captures members d
        (([] : List NExpr) ++ members.map fun w =>
          NExpr.lambdaConst w.defn.name w.resolved) (0 + members.length) with
      ⟨d1, e1, s1⟩
    have hmk : make_function_setter cfg members =
        .ok (.functionSetter cfg.moduleSlot d1 e1
          (members.map fun w => (w.slot, w.resolved))) := by
      unfold make_function_setter
      rw [hmfs]
      dsimp only
      rw [hmac]
    obtain ⟨st', hpm⟩ := pop_mark_ok i st.sccStack
      { st with actions := st.actions ++
        [Action.functionSetter cfg.moduleSlot d1 e1
          (members.map fun w => (w.slot, w.resolved))] } hmem
    have hps : pop_scc cfg st i = pop_mark i st.sccStack
        { st with actions := st.actions ++
          [Action.functionSetter cfg.moduleSlot d1 e1
            (members.map fun w => (w.slot, w.resolved))] } := by
      unfold pop_scc
      rw [hu]
      dsimp only
      rw [if_pos hroot, if_neg (by rw [hkind]; simp), hgu]
      dsimp only
      rw [hmk]
    refine ⟨Action.functionSetter cfg.moduleSlot d1 e1
        (members.map fun w => (w.slot, w.resolved)), st',
      by rw [hps]; exact hpm, ?_, ?_, ?_⟩
    · rw [pop_mark_actions i _ _ _ _ hpm]
    · simp [Action.writes]
    · exact pop_mark_marks i _ _ _ _ hpm u hu
  · intro cfg st i u hu hroot
    unfold pop_scc
    rw [hu]
    dsimp only
    rw [if_neg hroot]
  · intro cfg fuel count st k u hu hstate
    simp only [force_units]
    rw [hu]
    dsimp only
    rw [if_neg (by rw [hstate]; simp)]
  · intro cfg fuel st i id j u hj hstate
    obtain ⟨u2, hu2, hev⟩ :=
      (((analysis_pres fuel cfg).1 st i id).1).2.2.2.1 j u hj
    refine ⟨u2, hu2, ?_, hev.2.1⟩
    have hr := hev.2.2.1
    rw [hstate] at hr
    cases hs2 : u2.state with
    | notAnalyzed => rw [hs2] at hr; simp [stateRank] at hr
    | inProgress => rw [hs2] at hr; simp [stateRank] at hr
    | analyzed => rfl

/-- Witness for C6 at concrete states: the analyzed unit of `stA1` is looked
up without any state change, the completed data unit of `stD` emits exactly
one action writing slot 0, the completed function unit of `stF` emits exactly
one grouped action writing slot 0, the non-root unit 1 of `stYX2` emits
nothing, the force pass skips the analyzed unit, and the analyzed state is
absorbing. -/
theorem C6_exactly_once_witness :
    Recursive_Scope.single_lookup cfg0 7 stA1 "x" =
      .ok (some (mk_ref cfg0 "x" 0)) stA1 ∧
    (pop_scc cfg0 stD 0).errOf = none ∧
    writtenSlots ((pop_scc cfg0 stD 0).state).actions = [0] ∧
    (pop_scc cfg0 stF 0).errOf = none ∧
    writtenSlots ((pop_scc cfg0 stF 0).state).actions = [0] ∧
    pop_scc cfg0 stYX2 1 = .ok ⟨⟩ stYX2 ∧
    force_units cfg0 5 1 stA1 0 = force_units cfg0 5 0 stA1 1 ∧
    (getUnit ((analyze_unit cfg0 5 stA1 0 none).state) 0).map Unit.state =
      some .analyzed := by
  obtain ⟨stD', hD1, hD2, hD3, _⟩ := C6_exactly_once.2.1 cfg0 stD 0 uD 0 []
    rfl rfl rfl rfl
  obtain ⟨actF, stF', hF1, hF2, hF3, _⟩ :=
    C6_exactly_once.2.2.1 cfg0 stF 0
      { defn := ⟨"f", .func, ["y"]⟩, slot := 0, state := .inProgress,
        sccOrd := 0, sccLowlink := 0, resolved := [.symbolicRef "y"],
        nonlocals := [("y", .letRef "y" 5)] } msW
      rfl rfl rfl rfl (by decide) (by decide)
  obtain ⟨u2, hu2, hu2s, _⟩ := C6_exactly_once.2.2.2.2.2 cfg0 5 stA1 0 none
    0 { defn := ⟨"x", .data, []⟩, slot := 0, state := .analyzed,
        sccOrd := 0, sccLowlink := 0 } rfl rfl
  refine ⟨C6_exactly_once.1 cfg0 5 stA1 "x" ⟨0, 0⟩
      { defn := ⟨"x", .data, []⟩, slot := 0, state := .analyzed,
        sccOrd := 0, sccLowlink := 0 } rfl rfl rfl,
    ?_, ?_, ?_, ?_,
    C6_exactly_once.2.2.2.1 cfg0 stYX2 1
      { defn := ⟨"x", .data, ["y"]⟩, slot := 1, state := .inProgress,
        sccOrd := 1, sccLowlink := 0, resolved := [.letRef "y" 0] }
      rfl (by decide),
    C6_exactly_once.2.2.2.2.1 cfg0 5 0 stA1 0
      { defn := ⟨"x", .data, []⟩, slot := 0, state := .analyzed,
        sccOrd := 0, sccLowlink := 0 } rfl rfl,
    ?_⟩
  · rw [hD1]
    rfl
  · rw [hD1]
    show writtenSlots stD'.actions = [0]
    rw [hD2]
    simp [writtenSlots, stD, Data_Definition.make_setter, cfg0,
      Action.writes, uD]
  · rw [hF1]
    rfl
  · rw [hF1]
    show writtenSlots stF'.actions = [0]
    rw [hF2]
    simp [writtenSlots, stF, hF3, msW]
  · rw [hu2]
    simp [hu2s]

/-- C2: a data definition that depends on its own slot is rejected.  The
detection mechanism is fully general: any lookup that reaches a data unit
already in analysis-in-progress - which is exactly what happens when a data
definition's slot is reached again along any direct or transitive dependency
path from its own right-hand side - throws "illegal recursive reference"
immediately, leaving the state (in particular the emitted action list)
unchanged.  The claim's two example programs are checked end to end:
`x = x + 1;` and `x = y; y = x;` both fail with that exception, and in both
runs the final action list is empty, so no slot-writing action was emitted
before (or after) the failure. -/
theorem C2_cyclic_data :
    (∀ (cfg : Config) (fuel : Nat) (st : ScopeState) (i : Nat)
        (id : Option Atom) (u : Unit),
      getUnit st i = some u → u.state = .inProgress →
      u.defn.kind = .data →
      analyze_unit cfg (fuel + 1) st i id =
        .err (.illegalRecursiveReference id) st) ∧
    ((Recursive_Scope.analyze cfg0 exSelf 30).errOf =
      some (.illegalRecursiveReference (some "x")) ∧
     ((Recursive_Scope.analyze cfg0 exSelf 30).state).actions = []) ∧
    ((Recursive_Scope.analyze cfg0 exXY 30).errOf =
      some (.illegalRecursiveReference (some "x")) ∧
     ((Recursive_Scope.analyze cfg0 exXY 30).state).actions = []) := by
  refine ⟨?_, ?_, ?_⟩
  · intro cfg fuel st i id u hu hstate hkind
    simp only [analyze_unit, hu]
    rw [hstate]
    dsimp only
    rw [if_pos hkind]
  · constructor <;>
      simp [Recursive_Scope.analyze, Recursive_Scope.add_to_scope,
        Recursive_Scope.add_definition, Recursive_Scope.add_binding,
        analyze_actions, force_units, analyze_unit, enter_unit, finish_unit,
        analyze_body, Recursive_Scope.lookup, Recursive_Scope.single_lookup,
        Function_Environ.single_lookup, propagate_lowlink, pop_scc, pop_mark,
        mark_analyzed, scc_members, getUnits, getUnit, setUnit,
        make_function_setter, mfs_funs, mfs_all_captures, mfs_captures,
        mk_ref, lookupA, updateA, exSelf, cfg0, Config.targetIsModule,
        Data_Definition.make_setter, isConstant, Res.errOf, Res.state]
  · constructor <;>
      simp [Recursive_Scope.analyze, Recursive_Scope.add_to_scope,
        Recursive_Scope.add_definition, Recursive_Scope.add_binding,
        analyze_actions, force_units, analyze_unit, enter_unit, finish_unit,
        analyze_body, Recursive_Scope.lookup, Recursive_Scope.single_lookup,
        Function_Environ.single_lookup, propagate_lowlink, pop_scc, pop_mark,
        mark_analyzed, scc_members, getUnits, getUnit, setUnit,
        make_function_setter, mfs_funs, mfs_all_captures, mfs_captures,
        mk_ref, lookupA, updateA, exXY, cfg0, Config.targetIsModule,
        Data_Definition.make_setter, isConstant, Res.errOf, Res.state]

/-- Witness for C2's general detection clause at the in-progress data unit 1
of `stYX2`. -/
theorem C2_cyclic_data_witness :
    analyze_unit cfg0 6 stYX2 1 (some "x") =
      .err (.illegalRecursiveReference (some "x")) stYX2 :=
  C2_cyclic_data.1 cfg0 5 stYX2 1 (some "x")
    { defn := ⟨"x", .data, ["y"]⟩, slot := 1, state := .inProgress,
      sccOrd := 1, sccLowlink := 0, resolved := [.letRef "y" 0] }
    rfl rfl rfl

/-- C1: the final action list is emitted in dependency order.  The ordering
mechanism is general: (i) when a not-yet-analyzed unit is analyzed, its body
is resolved first - every action triggered by the body's lookups (the setters
of the units it depends on) is appended to the action list before this call
appends the at most one initializer of the unit's own SCC, which therefore
follows all of them; (ii) a bare statement's operation is appended only after
the statement's analysis, hence after any setters its lookups triggered.  The
resulting topological ordering - no action reads a slot before the action
writing it has been emitted, with reads within one grouped setter allowed
(co-members of one SCC reference each other through the shared nonlocals,
never through slot reads) - is checked on the complete runs of
`f() = g() + 1; g() = 2;`, of the module `a = 1; b = a; <stmt b>; c() = b;`
(whose bare statement reads `b` after both data setters), and of the mutually
recursive `f() = g(); g() = f();` (one grouped setter, no install-time
reads). -/
theorem C1_topological_order :
    (∀ (cfg : Config) (fuel : Nat) (st : ScopeState) (i : Nat)
        (id : Option Atom) (a : PUnit) (st' : ScopeState) (u : Unit),
      getUnit st i = some u → u.state = .notAnalyzed →
      analyze_unit cfg (fuel + 1) st i id = .ok a st' →
      ∃ exprs stB Δ,
        analyze_body cfg fuel (enter_unit st i u) i u.defn.refs
          u.defn.kind = .ok exprs stB ∧
        stB.actions = st.actions ++ Δ ∧
        (st'.actions = stB.actions ∨
          ∃ act, st'.actions = stB.actions ++ [act])) ∧
    (∀ (cfg : Config) (fuel : Nat) (st : ScopeState) (refs : List Atom)
        (rest : List (List Atom)) (ops : List Expr) (st1 : ScopeState),
      analyze_body cfg fuel st st.units.length refs .data = .ok ops st1 →
      analyze_actions cfg fuel st (refs :: rest) =
        analyze_actions cfg fuel
          { st1 with actions := st1.actions ++ [.statement ops] } rest) ∧
    topoCheck [] ((Recursive_Scope.analyze cfg0 exFG 30).state).actions =
      true ∧
    topoCheck [] ((Recursive_Scope.analyze cfgM exModule 30).state).actions =
      true ∧
    topoCheck [] ((Recursive_Scope.analyze cfg0 exMutual 30).state).actions =
      true := by
  refine ⟨?_, ?_, ?_, ?_, ?_⟩
  · intro cfg fuel st i id a st' u hu hstate h
    obtain ⟨u', hu', hcase⟩ := analyze_unit_ok_shape cfg fuel st i id a st' h
    have huu : u = u' := by
      rw [hu] at hu'
      exact Option.some.inj hu'
    subst huu
    rcases hcase with ⟨hst', _⟩ | ⟨hst', _⟩ | ⟨_, exprs, st2, hbody, hfin⟩
    · rw [hstate] at hst'
      exact absurd hst' (by simp)
    · rw [hstate] at hst'
      exact absurd hst' (by simp)
    · have hp := ((analysis_pres fuel cfg).2.2.2.2 (enter_unit st i u) i
        u.defn.refs u.defn.kind).1
      rw [hbody] at hp
      obtain ⟨Δ, hΔ⟩ := hp.2.2.2.2.1
      refine ⟨exprs, st2, Δ, hbody, hΔ, ?_⟩
      exact finish_unit_actions cfg st2 i id exprs a st' hfin
  · intro cfg fuel st refs rest ops st1 h
    simp only [analyze_actions]
    rw [h]
  · rw [run_exFG]
    rfl
  · rw [run_exModule]
    rfl
  · rw [run_exMutual]
    rfl

/-- Witness for C1: the fresh data unit of `stN1` is analyzed (its empty body
first, its setter appended last), and a bare statement reading the analyzed
slot of `stA1` is appended only after its analysis. -/
theorem C1_topological_order_witness :
    (∃ exprs stB Δ,
      analyze_body cfg0 4 (enter_unit stN1 0 { defn := ⟨"x", .data, []⟩ }) 0
        ([] : List Atom) .data = .ok exprs stB ∧
      stB.actions = stN1.actions ++ Δ ∧
      (((analyze_unit cfg0 5 stN1 0 none).state).actions = stB.actions ∨
        ∃ act, ((analyze_unit cfg0 5 stN1 0 none).state).actions =
          stB.actions ++ [act])) ∧
    analyze_actions cfg0 5 stA1 [["x"]] =
      analyze_actions cfg0 5
        { stA1 with actions := stA1.actions ++
            [.statement [.letRef "x" 0]] } [] := by
  have hrun : analyze_unit cfg0 5 stN1 0 none = .ok ⟨⟩
      { units := [{ defn := ⟨"x", .data, []⟩, slot := 0, state := .analyzed,
                    sccOrd := 0, sccLowlink := 0 }],
        dictionary := [("x", ⟨0, 0⟩)], actions := [.dataSetter 0 []],
        sccCount := 1, slotCount := 1 } := by
    simp [analyze_unit, enter_unit, finish_unit, analyze_body,
      propagate_lowlink, pop_scc, pop_mark, mark_analyzed, scc_members,
      getUnits, getUnit, setUnit, mk_ref, lookupA, stN1, cfg0,
      Data_Definition.make_setter, isConstant]
  have hbody : analyze_body cfg0 5 stA1 1 ["x"] .data =
      .ok [.letRef "x" 0] stA1 := by
    simp [analyze_body, Recursive_Scope.lookup, Recursive_Scope.single_lookup,
      analyze_unit, getUnit, mk_ref, lookupA, stA1, cfg0, isConstant]
  constructor
  · obtain ⟨exprs, stB, Δ, h1, h2, h3⟩ := C1_topological_order.1 cfg0 4 stN1
      0 none ⟨⟩ _ { defn := ⟨"x", .data, []⟩ } rfl rfl hrun
    refine ⟨exprs, stB, Δ, h1, h2, ?_⟩
    rw [hrun]
    exact h3
  · have hstA1 : stA1.units.length = 1 := rfl
    have h := C1_topological_order.2.1 cfg0 5 stA1 ["x"] []
      [.letRef "x" 0] stA1 (by rw [hstA1]; exact hbody)
    exact h

end Curv
